import Mathlib

/-!
Shallow embedding of the SLG prolog solver (Simmypeet/slg-prolog-solver).

Sources embedded:
* `src/term.rs`        — the `Term` algebra.
* `src/substitution.rs`— `Substitution` with `apply_term`, `insert_mapping`,
  `compose`, `unify_terms`, `unify_predicate` and the free `occurs_check`.
* `src/canonicalize.rs`— variable canonicalization, `reverse_mapping`,
  `uncanonicalize_substitution`.
* `src/solver/table.rs`— the SLG engine (`get_table_id`, `create_table`,
  `ensure_answer`, `pull_next_answer`, `try_pull_next_answer_from_strand`,
  `cyclic`, `clear_strands_after_cycle`, `Table::insert_answer`).
* `src/solver/stack.rs`— the depth-first `Stack`.
* `src/arena.rs`       — `Arena::insert_with_id`.
* `src/clause.rs`      — the (older-generation) clause module with its own
  canonicalizer (whose `Term::Atom` arm is `todo!()`), in namespace `legacy`.

Modelling conventions:
* Rust `HashMap` becomes an association list; `HashMap::insert` replaces the
  value of an existing key and otherwise appends; iteration order of a
  `HashMap` is unspecified in Rust, so statements quantify over the list order.
* Rust functions whose recursion is not structurally bounded take a fuel
  parameter; `none` models both exhaustion of fuel and a Rust panic
  (`unwrap`, failed `assert!`, out-of-bounds index, `todo!()`), as noted at
  each definition.
* Recursion over the `Vec<Term>` argument of a compound term is written as a
  mutual function on `List Term` (the direct image of `for subterm in terms`).
* `usize` is modelled by `Nat`; `DepthFirstNumber::MAX` is the `usize::MAX`
  literal, which the engine uses only as a sentinel for `min`.
-/

/-- `Term` from `src/term.rs`: tagged union of atom / variable / compound. -/
inductive Term : Type where
  | atom : String → Term
  | var : Nat → Term
  | compound : String → List Term → Term

mutual

/-- Structural equality test on `Term` (the derived `PartialEq` of Rust). -/
def Term.beq : Term → Term → Bool
  | .atom a, .atom b => a = b
  | .var a, .var b => a = b
  | .compound f a, .compound g b => f = g && Term.beq_list a b
  | _, _ => false

/-- Structural equality test on `Vec<Term>`. -/
def Term.beq_list : List Term → List Term → Bool
  | [], [] => true
  | a :: as_, b :: bs => Term.beq a b && Term.beq_list as_ bs
  | _, _ => false

end

mutual

def Term.beq_iff : ∀ a b : Term, Term.beq a b = true ↔ a = b
  | .atom a, .atom b => by simp [Term.beq]
  | .atom _, .var _ => by simp [Term.beq]
  | .atom _, .compound _ _ => by simp [Term.beq]
  | .var _, .atom _ => by simp [Term.beq]
  | .var a, .var b => by simp [Term.beq]
  | .var _, .compound _ _ => by simp [Term.beq]
  | .compound _ _, .atom _ => by simp [Term.beq]
  | .compound _ _, .var _ => by simp [Term.beq]
  | .compound f a, .compound g b => by
    simp [Term.beq, Term.beq_list_iff a b]

def Term.beq_list_iff : ∀ a b : List Term, Term.beq_list a b = true ↔ a = b
  | [], [] => by simp [Term.beq_list]
  | [], _ :: _ => by simp [Term.beq_list]
  | _ :: _, [] => by simp [Term.beq_list]
  | a :: as_, b :: bs => by
    simp [Term.beq_list, Term.beq_iff a b, Term.beq_list_iff as_ bs]

end

instance : DecidableEq Term := fun a b => decidable_of_iff _ (Term.beq_iff a b)

/-- Lookup in an association list modelling `HashMap::get`. -/
def alist_lookup {κ α : Type} [DecidableEq κ] (k : κ) : List (κ × α) → Option α
  | [] => none
  | p :: rest => if p.1 = k then some p.2 else alist_lookup k rest

/-- `HashMap::insert` on the association-list model: replace the value of an
existing key, otherwise append the new pair. -/
def alist_insert {κ α : Type} [DecidableEq κ] (k : κ) (v : α) (l : List (κ × α)) :
    List (κ × α) :=
  if l.any (fun p => p.1 = k) then
    l.map (fun p => if p.1 = k then (k, v) else p)
  else
    l ++ [(k, v)]

/-- `Substitution` from `src/substitution.rs`: a map from variable index to
term, modelled as an association list standing for the `HashMap`. -/
structure Substitution : Type where
  mapping : List (Nat × Term)
  deriving DecidableEq

mutual

/-- `Substitution::apply_term` (`src/substitution.rs:13`): replace every
`Term::Variable` bound by the mapping, one level (no chasing). -/
def Substitution.apply_term (σ : Substitution) : Term → Term
  | .atom s => .atom s
  | .var v =>
    match alist_lookup v σ.mapping with
    | some replacement => replacement
    | none => .var v
  | .compound f args => .compound f (Substitution.apply_term_list σ args)

/-- `apply_term` mapped over the arguments of a compound term. -/
def Substitution.apply_term_list (σ : Substitution) : List Term → List Term
  | [] => []
  | t :: ts => σ.apply_term t :: σ.apply_term_list ts

end

mutual

/-- `Substitution::compose_mapping_in_term` (`src/substitution.rs:31`):
replace `Variable(v)` by `t_ins` in a term (no recursion into the copy). -/
def compose_mapping_in_term (t : Term) (v : Nat) (t_ins : Term) : Term :=
  match t with
  | .var w => if w = v then t_ins else .var w
  | .compound f args => .compound f (compose_mapping_in_term_list args v t_ins)
  | .atom s => .atom s

/-- `compose_mapping_in_term` mapped over compound arguments. -/
def compose_mapping_in_term_list (ts : List Term) (v : Nat) (t_ins : Term) :
    List Term :=
  match ts with
  | [] => []
  | t :: rest =>
    compose_mapping_in_term t v t_ins :: compose_mapping_in_term_list rest v t_ins

end

/-- `Substitution::insert_mapping` (`src/substitution.rs:53`): rewrite every
existing binding by the new pair, then `HashMap::insert` it. -/
def Substitution.insert_mapping (σ : Substitution) (v : Nat) (term : Term) :
    Substitution :=
  ⟨alist_insert v term
    (σ.mapping.map (fun p => (p.1, compose_mapping_in_term p.2 v term)))⟩

mutual

/-- `occurs_check` from `src/substitution.rs:133`. -/
def occurs_check (v : Nat) : Term → Bool
  | .atom _ => false
  | .var w => w = v
  | .compound _ terms => occurs_check_list v terms

/-- `terms.iter().any(|t| occurs_check(variable, t))`. -/
def occurs_check_list (v : Nat) : List Term → Bool
  | [] => false
  | t :: ts => occurs_check v t || occurs_check_list v ts

end

/-- `Substitution::compose` (`src/substitution.rs:126`): insert every binding
of `other` into `self`, in the iteration order of `other` (a `HashMap` order,
modelled by the list order). -/
def Substitution.compose (σ : Substitution) (other : Substitution) : Substitution :=
  other.mapping.foldl (fun acc p => acc.insert_mapping p.1 p.2) σ

mutual

/-- `Substitution::unify_terms` (`src/substitution.rs:68`), with a fuel
parameter for the non-structural recursion: `none` is fuel exhaustion,
`some none` is unification failure (Rust `None`), `some (some σ)` success.
The or-pattern `(Variable(v), t) | (t, Variable(v))` of the Rust `match`
tries the left alternative first, which the arm order below mirrors. -/
def Substitution.unify_terms : Nat → Substitution → Term → Term →
    Option (Option Substitution)
  | 0, _, _, _ => none
  | fuel + 1, σ, lhs, rhs =>
    match σ.apply_term lhs, σ.apply_term rhs with
    | .var v1, .var v2 =>
      if v1 = v2 then some (some σ)
      else if occurs_check v1 (.var v2) then some none
      else some (some (σ.insert_mapping v1 (.var v2)))
    | .var v, t =>
      if occurs_check v t then some none
      else some (some (σ.insert_mapping v t))
    | t, .var v =>
      if occurs_check v t then some none
      else some (some (σ.insert_mapping v t))
    | .atom a1, .atom a2 => if a1 = a2 then some (some σ) else some none
    | .compound f1 args1, .compound f2 args2 =>
      if f1 = f2 ∧ args1.length = args2.length then
        Substitution.unify_list fuel σ args1 args2
      else some none
    | _, _ => some none

/-- The argument-wise fold inside the compound case of `unify_terms`
(`src/substitution.rs:93-97`). -/
def Substitution.unify_list : Nat → Substitution → List Term → List Term →
    Option (Option Substitution)
  | 0, _, _, _ => none
  | _ + 1, σ, [], [] => some (some σ)
  | fuel + 1, σ, a :: as_, b :: bs =>
    match Substitution.unify_terms fuel σ a b with
    | none => none
    | some none => some none
    | some (some σ') => Substitution.unify_list fuel σ' as_ bs
  | _ + 1, _, _, _ => some none

end

/-- Modelled from the spec: the newer-generation `Predicate` struct
(`(name, [Term])`, §3 of the spec); its declaration is missing from `src/`,
but its fields `name` and `arguments` are pinned by `src/substitution.rs`
(`unify_predicate`, `apply_predicate`) and `src/canonicalize.rs`. -/
structure Predicate : Type where
  name : String
  arguments : List Term
  deriving DecidableEq

/-- Modelled from the spec: `Goal` is "a wrapper around a Predicate" (§3);
the declaration is missing from `src/`, usage pinned by `src/solver/table.rs`
and `src/canonicalize.rs`. -/
structure Goal : Type where
  predicate : Predicate
  deriving DecidableEq

/-- Modelled from the spec: `Clause — (head: Predicate, body: [Goal])` (§3);
the declaration is missing from `src/`, usage pinned by `src/canonicalize.rs`
and `src/solver/table.rs`. -/
structure Clause : Type where
  head : Predicate
  body : List Goal
  deriving DecidableEq

/-- Modelled from the spec: `KnowledgeBase` is a "map from predicate name to
ordered list of canonical clauses" (§3); the newer-generation declaration is
missing from `src/`. -/
structure KnowledgeBase : Type where
  clauses_by_predicate_name : List (String × List Clause)
  deriving DecidableEq

/-- Modelled from the spec: `get_clauses(name)` returns the bucket (§4.5). -/
def KnowledgeBase.get_clauses (kb : KnowledgeBase) (name : String) :
    Option (List Clause) :=
  alist_lookup name kb.clauses_by_predicate_name

/-- `Substitution::apply_predicate` (`src/substitution.rs:62`). -/
def Substitution.apply_predicate (σ : Substitution) (goal : Predicate) : Predicate :=
  ⟨goal.name, Substitution.apply_term_list σ goal.arguments⟩

/-- `Substitution::unify_predicate` (`src/substitution.rs:105`): names and
arities must match, then the arguments are unified pairwise threading the
substitution (the same fold as the compound case of `unify_terms`). -/
def Substitution.unify_predicate (fuel : Nat) (σ : Substitution)
    (lhs rhs : Predicate) : Option (Option Substitution) :=
  if lhs.name ≠ rhs.name ∨ lhs.arguments.length ≠ rhs.arguments.length then
    some none
  else
    Substitution.unify_list fuel σ lhs.arguments rhs.arguments

mutual

/-- `Term::canonicalize_internal` (`src/canonicalize.rs:40`): rename each
variable to the next counter value at its first occurrence, threading the
counter and the forward mapping (original index → canonical index). -/
def Term.canonicalize_internal (t : Term) (counter : Nat)
    (mapping : List (Nat × Nat)) : Term × Nat × List (Nat × Nat) :=
  match t with
  | .atom s => (.atom s, counter, mapping)
  | .var id =>
    match alist_lookup id mapping with
    | some new_id => (.var new_id, counter, mapping)
    | none => (.var counter, counter + 1, alist_insert id counter mapping)
  | .compound f terms =>
    let r := Term.canonicalize_internal_list terms counter mapping
    (.compound f r.1, r.2)

/-- `canonicalize_internal` folded over a term list (`for term in terms`). -/
def Term.canonicalize_internal_list (ts : List Term) (counter : Nat)
    (mapping : List (Nat × Nat)) : List Term × Nat × List (Nat × Nat) :=
  match ts with
  | [] => ([], counter, mapping)
  | t :: rest =>
    let r := Term.canonicalize_internal t counter mapping
    let r2 := Term.canonicalize_internal_list rest r.2.1 r.2.2
    (r.1 :: r2.1, r2.2)

end

/-- `Predicate::canonicalize` (`src/canonicalize.rs:16`): canonicalize the
arguments starting from counter 0 and return the forward mapping (and the
rewritten predicate, which Rust updates in place). -/
def Predicate.canonicalize (p : Predicate) : List (Nat × Nat) × Predicate :=
  let r := Term.canonicalize_internal_list p.arguments 0 []
  (r.2.2, ⟨p.name, r.1⟩)

/-- `Goal::canonicalize` (`src/canonicalize.rs:10`). -/
def Goal.canonicalize (g : Goal) : List (Nat × Nat) × Goal :=
  let r := g.predicate.canonicalize
  (r.1, ⟨r.2⟩)

/-- The body of `Clause::canonicalize_internal` (`src/canonicalize.rs:89`):
head arguments first, then every body goal's arguments, threading counter
and mapping. -/
def Clause.canonicalize_internal (c : Clause) (counter : Nat)
    (mapping : List (Nat × Nat)) : Clause × Nat × List (Nat × Nat) :=
  let rh := Term.canonicalize_internal_list c.head.arguments counter mapping
  let rb := c.body.foldl
    (fun acc g =>
      let r := Term.canonicalize_internal_list g.predicate.arguments acc.2.1 acc.2.2
      (acc.1 ++ [Goal.mk ⟨g.predicate.name, r.1⟩], r.2))
    (([] : List Goal), rh.2)
  (⟨⟨c.head.name, rh.1⟩, rb.1⟩, rb.2)

/-- `Clause::canonicalize_with_counter` (`src/canonicalize.rs:82`): start the
renaming at `counter` with a fresh mapping; returns the final counter (and
the rewritten clause, updated in place in Rust). -/
def Clause.canonicalize_with_counter (c : Clause) (counter : Nat) :
    Nat × Clause :=
  let r := c.canonicalize_internal counter []
  (r.2.1, r.1)

/-- `reverse_mapping` (`src/canonicalize.rs:106`): swap every pair and
collect into a fresh map (`HashMap` collect = repeated insert). -/
def reverse_mapping (mapping : List (Nat × Nat)) : List (Nat × Nat) :=
  mapping.foldl (fun acc p => alist_insert p.2 p.1 acc) []

mutual

/-- `apply_uncanonicalization` inside `uncanonicalize_substitution`
(`src/canonicalize.rs:116`): remap every variable found in the mapping. -/
def apply_uncanonicalization (t : Term) (m : List (Nat × Nat)) : Term :=
  match t with
  | .var v =>
    match alist_lookup v m with
    | some w => .var w
    | none => .var v
  | .compound f args => .compound f (apply_uncanonicalization_list args m)
  | .atom s => .atom s

/-- `apply_uncanonicalization` over compound arguments. -/
def apply_uncanonicalization_list (ts : List Term) (m : List (Nat × Nat)) :
    List Term :=
  match ts with
  | [] => []
  | t :: rest => apply_uncanonicalization t m :: apply_uncanonicalization_list rest m

end

/-- `uncanonicalize_substitution` (`src/canonicalize.rs:112`): remap every
bound variable through the mapping (left unchanged when absent) and remap the
variables inside every bound term; collected into a fresh map. -/
def uncanonicalize_substitution (s : Substitution) (m : List (Nat × Nat)) :
    Substitution :=
  ⟨s.mapping.foldl
    (fun acc p =>
      alist_insert ((alist_lookup p.1 m).getD p.1) (apply_uncanonicalization p.2 m) acc)
    []⟩

mutual

/-- Modelled from the spec: the largest variable index mentioned in a term,
or none (`max_inference_variable_index`, §3); `Goal::max_variable_index` is
missing from `src/` but called by `src/solver/table.rs`. -/
def Term.max_var : Term → Option Nat
  | .atom _ => none
  | .var v => some v
  | .compound _ args => Term.max_var_list args

/-- Largest variable index in a term list, or none. -/
def Term.max_var_list : List Term → Option Nat
  | [] => none
  | t :: ts =>
    match Term.max_var t, Term.max_var_list ts with
    | none, r => r
    | some v, none => some v
    | some v, some w => some (max v w)

end

/-- Modelled from the spec: `max_variable_index` of a goal — the largest
variable index mentioned in the goal, or none (§3, `Table` invariants). -/
def Goal.max_variable_index (g : Goal) : Option Nat :=
  Term.max_var_list g.predicate.arguments

/-- `DepthFirstNumber` from `src/solver/stack.rs:52`, a `usize` newtype. -/
structure DepthFirstNumber : Type where
  val : Nat
  deriving DecidableEq

/-- `DepthFirstNumber::MAX` (`usize::MAX` on a 64-bit target). -/
def DepthFirstNumber.MAX : DepthFirstNumber := ⟨18446744073709551615⟩

/-- `Ord::min` on the derived order of the newtype. -/
def DepthFirstNumber.min (a b : DepthFirstNumber) : DepthFirstNumber :=
  ⟨Nat.min a.val b.val⟩

/-- `Entry` from `src/solver/stack.rs:46`; `ID<Table>` is its `u64` index. -/
structure Entry : Type where
  table : Nat
  depth_first_number : DepthFirstNumber
  deriving DecidableEq

/-- `Stack` from `src/solver/stack.rs:6`. -/
structure Stack : Type where
  stack : List Entry
  counter : Nat
  deriving DecidableEq

/-- `Stack::is_active` (`src/solver/stack.rs:12`): the position of the first
entry for `table`, if any. -/
def Stack.is_active (s : Stack) (table : Nat) : Option Nat :=
  s.stack.findIdx? (fun entry => entry.table = table)

/-- `Stack::push` (`src/solver/stack.rs:16`): append an entry carrying the
next depth-first number and return the index at which it was pushed. -/
def Stack.push (s : Stack) (table : Nat) : Nat × Stack :=
  (s.stack.length, ⟨s.stack ++ [⟨table, ⟨s.counter⟩⟩], s.counter + 1⟩)

/-- `Stack::pop` (`src/solver/stack.rs:30`); the popped entry is discarded at
the only call site, so the model returns the shrunk stack. -/
def Stack.pop (s : Stack) : Stack :=
  ⟨s.stack.dropLast, s.counter⟩

/-- Modelled from the spec: `selected_subgoal_state` is a
"`(table_id, answer_index, canonical_mapping)` triple" (§3); the `GoalState`
declaration lives in the missing newer-generation `solver.rs`, its fields
pinned by `src/solver/table.rs`. -/
structure GoalState : Type where
  answer_index : Nat
  table_id : Nat
  canonical_mapping : List (Nat × Nat)
  deriving DecidableEq

/-- `Strand` from `src/solver/table.rs:457`. -/
structure Strand : Type where
  rest_subgoals : List Goal
  selected_subgoal : Goal
  substitution : Substitution
  selected_subgoal_state : GoalState
  deriving DecidableEq

/-- `Table` from `src/solver/table.rs:348`. -/
structure Table : Type where
  work_list : List Strand
  answers : List Substitution
  canonicalized_goal : Goal
  max_inference_variable_index : Option Nat
  deriving DecidableEq

/-- `Tables` from `src/solver/table.rs:15`: the arena of tables (a
`state::Default` arena, i.e. a plain id-keyed map) and the goal index. -/
structure Tables : Type where
  tables : List (Nat × Table)
  table_ids_by_goal : List (Goal × Nat)
  deriving DecidableEq

/-- Modelled from the spec: the `Solver` holds the Stack, the Tables and a
reference to the KnowledgeBase (§2, §4.7); the struct declaration lives in
the missing newer-generation `solver.rs`, its fields pinned by
`src/solver/table.rs`. -/
structure Solver : Type where
  stack : Stack
  tables : Tables
  knowledge_base : KnowledgeBase
  deriving DecidableEq

/-- `EnsureAnswer` from `src/solver/table.rs:27`. -/
inductive EnsureAnswer : Type where
  | answerAvailable
  deriving DecidableEq

/-- `Error` from `src/solver/table.rs:32`. -/
inductive Error : Type where
  | noMoreSolutions
  | positiveCyclicDependency (d : DepthFirstNumber)
  | negativeCyclicDependency
  deriving DecidableEq

/-- `PullAnswerFromStrand` from `src/solver/table.rs:39`. -/
inductive PullAnswerFromStrand : Type where
  | stale
  | newAnswer
  | progress
  deriving DecidableEq

/-- Store table `tbl` under `id` in the solver's arena
(`self.tables.tables[id] = ...` mutation). -/
def upd_table (st : Solver) (id : Nat) (tbl : Table) : Solver :=
  {st with tables := {st.tables with tables := alist_insert id tbl st.tables.tables}}

/-- The `HashMap` `PartialEq` used by `Vec::contains` on answers: equal size
and every binding of the left map present in the right one. -/
def Substitution.hm_eq (a b : Substitution) : Bool :=
  (a.mapping.length == b.mapping.length) &&
    a.mapping.all (fun p => alist_lookup p.1 b.mapping == some p.2)

/-- `Table::insert_answer` (`src/solver/table.rs:366`): project the answer to
keys `≤ max_inference_variable_index` (or to the empty substitution when the
index is `None`), then append it unless already present; returns whether a
new answer was added, paired with the updated table. -/
def Table.insert_answer (tbl : Table) (answer : Substitution) : Bool × Table :=
  let answer_to_add : Substitution :=
    match tbl.max_inference_variable_index with
    | some max_index => ⟨answer.mapping.filter (fun p => p.1 ≤ max_index)⟩
    | none => ⟨[]⟩
  if tbl.answers.any (fun a => a.hm_eq answer_to_add) then
    (false, tbl)
  else
    (true, {tbl with answers := tbl.answers ++ [answer_to_add]})

mutual

/-- `Solver::get_table_id` (`src/solver/table.rs:47`): return the memoized id
for a canonical goal, or allocate the next id, record it, create the table
and insert it (`insert_with_id(..).unwrap()`: an occupied id panics). -/
def get_table_id : Nat → Solver → Goal → Option (Nat × Solver)
  | 0, _, _ => none
  | fuel + 1, st, goal =>
    match alist_lookup goal st.tables.table_ids_by_goal with
    | some id => some (id, st)
    | none =>
      let id := st.tables.table_ids_by_goal.length
      let st1 := {st with tables := {st.tables with
        table_ids_by_goal := alist_insert goal id st.tables.table_ids_by_goal}}
      match create_table fuel st1 goal with
      | none => none
      | some (tbl, st2) =>
        match alist_lookup id st2.tables.tables with
        | some _ => none
        | none =>
          some (id, {st2 with tables := {st2.tables with
            tables := st2.tables.tables ++ [(id, tbl)]}})

/-- `Solver::create_table` (`src/solver/table.rs:388`): build the initial
table for a canonical goal out of the matching clauses. Empty-body clauses
push their unifier straight into `answers` (`answers.push(substitution)`). -/
def create_table : Nat → Solver → Goal → Option (Table × Solver)
  | 0, _, _ => none
  | fuel + 1, st, goal =>
    let clauses := (st.knowledge_base.get_clauses goal.predicate.name).getD []
    let k := match goal.max_variable_index with
      | some x => x + 1
      | none => 0
    match create_table_clauses fuel st goal k clauses [] [] with
    | none => none
    | some (answers, strands, st') =>
      some (⟨strands, answers, goal, goal.max_variable_index⟩, st')

/-- The clause loop of `create_table` (`src/solver/table.rs:403-440`),
threading the accumulated answers, strands and solver state. -/
def create_table_clauses : Nat → Solver → Goal → Nat → List Clause →
    List Substitution → List Strand →
    Option (List Substitution × List Strand × Solver)
  | 0, _, _, _, _, _, _ => none
  | fuel + 1, st, goal, k, clauses, answers, strands =>
    match clauses with
    | [] => some (answers, strands, st)
    | c :: rest =>
      let c' := (c.canonicalize_with_counter k).2
      match Substitution.unify_predicate fuel ⟨[]⟩ goal.predicate c'.head with
      | none => none
      | some none => create_table_clauses fuel st goal k rest answers strands
      | some (some σ) =>
        match c'.body with
        | [] => create_table_clauses fuel st goal k rest (answers ++ [σ]) strands
        | g0 :: grest =>
          let sel := Goal.mk (σ.apply_predicate g0.predicate)
          let rc := sel.canonicalize
          let m := reverse_mapping rc.1
          match get_table_id fuel st rc.2 with
          | none => none
          | some (tid, st') =>
            create_table_clauses fuel st' goal k rest answers
              (strands ++ [⟨grest, rc.2, σ, ⟨0, tid, m⟩⟩])

/-- `Solver::ensure_answer` (`src/solver/table.rs:79`): memoized hit, the
in-order assertion (`assert!(table.answers.len() == answer_index)`, a panic
when violated), the positive-cycle check against the Stack, and otherwise
push / `pull_next_answer` / pop with success mapped to `AnswerAvailable`. -/
def ensure_answer : Nat → Solver → Nat → Nat →
    Option (Except Error EnsureAnswer × Solver)
  | 0, _, _, _ => none
  | fuel + 1, st, table_id, answer_index =>
    match alist_lookup table_id st.tables.tables with
    | none => none
    | some table =>
      if answer_index < table.answers.length then
        some (.ok .answerAvailable, st)
      else if table.answers.length ≠ answer_index then
        none
      else
        match st.stack.is_active table_id with
        | some counter =>
          match st.stack.stack.get? counter with
          | none => none
          | some e => some (.error (.positiveCyclicDependency e.depth_first_number), st)
        | none =>
          let pr := st.stack.push table_id
          match pull_next_answer fuel {st with stack := pr.2} table_id pr.1 with
          | none => none
          | some (r, st2) =>
            some (r.map (fun _ => EnsureAnswer.answerAvailable),
              {st2 with stack := st2.stack.pop})
  termination_by structural fuel => fuel

/-- `Solver::pull_next_answer` (`src/solver/table.rs:114`): run the strand
loop with `cyclic_counter = DFN::MAX` and no delayed strands. -/
def pull_next_answer : Nat → Solver → Nat → Nat →
    Option (Except Error Unit × Solver)
  | 0, _, _, _ => none
  | fuel + 1, st, table_id, stack_index =>
    pull_loop fuel st table_id stack_index DepthFirstNumber.MAX []

/-- The `loop` of `pull_next_answer` (`src/solver/table.rs:122-180`):
pop a strand from the table's work list and dispatch on
`try_pull_next_answer_from_strand`, accumulating delayed strands and the
minimum cyclic counter. -/
def pull_loop : Nat → Solver → Nat → Nat → DepthFirstNumber → List Strand →
    Option (Except Error Unit × Solver)
  | 0, _, _, _, _, _ => none
  | fuel + 1, st, table_id, stack_index, cyclic_counter, delayed =>
    match alist_lookup table_id st.tables.tables with
    | none => none
    | some table =>
      match table.work_list with
      | [] =>
        if delayed.isEmpty then some (.error .noMoreSolutions, st)
        else
          match cyclic fuel st delayed cyclic_counter stack_index with
          | none => none
          | some (e, st') => some (.error e, st')
      | strand :: rest =>
        let st1 := upd_table st table_id {table with work_list := rest}
        match try_pull_next_answer_from_strand fuel st1 table_id strand with
        | none => none
        | some (.ok .newAnswer, st2) =>
          match alist_lookup table_id st2.tables.tables with
          | none => none
          | some t2 =>
            some (.ok (), upd_table st2 table_id
              {t2 with work_list := t2.work_list ++ delayed})
        | some (.ok .stale, st2) =>
          pull_loop fuel st2 table_id stack_index cyclic_counter delayed
        | some (.ok .progress, st2) =>
          pull_loop fuel st2 table_id stack_index cyclic_counter delayed
        | some (.error (.negativeCyclicDependency, _), st2) =>
          some (.error .negativeCyclicDependency, st2)
        | some (.error (.positiveCyclicDependency c, s), st2) =>
          pull_loop fuel st2 table_id stack_index
            (DepthFirstNumber.min c cyclic_counter) (delayed ++ [s])
        | some (.error (.noMoreSolutions, _), st2) =>
          pull_loop fuel st2 table_id stack_index cyclic_counter delayed
  termination_by structural fuel => fuel

/-- `Solver::cyclic` (`src/solver/table.rs:183`): compare the depth-first
number at `stack_index` with the accumulated cyclic counter. Less: negative
cyclic dependency. Equal: clear the strand work-lists transitively and
report no more solutions. Greater: re-enqueue the delayed strands and report
a positive cyclic dependency carrying the counter. -/
def cyclic : Nat → Solver → List Strand → DepthFirstNumber → Nat →
    Option (Error × Solver)
  | 0, _, _, _, _ => none
  | fuel + 1, st, cylic_strands, cyclic_counter, stack_index =>
    match st.stack.stack.get? stack_index with
    | none => none
    | some e =>
      if e.depth_first_number.val < cyclic_counter.val then
        some (.negativeCyclicDependency, st)
      else if e.depth_first_number.val = cyclic_counter.val then
        match clear_strands_after_cycle fuel st e.table cylic_strands with
        | none => none
        | some st' => some (.noMoreSolutions, st')
      else
        match alist_lookup e.table st.tables.tables with
        | none => none
        | some table =>
          some (.positiveCyclicDependency cyclic_counter,
            upd_table st e.table {table with work_list := table.work_list ++ cylic_strands})

/-- `Solver::clear_strands_after_cycle` (`src/solver/table.rs:214`): assert
the table's work list is empty (a panic otherwise), then for each strand
take the work list of its selected subgoal's table and recurse. -/
def clear_strands_after_cycle : Nat → Solver → Nat → List Strand →
    Option Solver
  | 0, _, _, _ => none
  | fuel + 1, st, table_id, strands =>
    match alist_lookup table_id st.tables.tables with
    | none => none
    | some table =>
      if table.work_list.isEmpty then clear_strands_loop fuel st strands
      else none
  termination_by structural fuel => fuel

/-- The strand loop of `clear_strands_after_cycle`
(`src/solver/table.rs:221-230`). -/
def clear_strands_loop : Nat → Solver → List Strand → Option Solver
  | 0, _, _ => none
  | fuel + 1, st, strands =>
    match strands with
    | [] => some st
    | s :: rest =>
      let sel_id := s.selected_subgoal_state.table_id
      match alist_lookup sel_id st.tables.tables with
      | none => none
      | some tb =>
        let st1 := upd_table st sel_id {tb with work_list := []}
        match clear_strands_after_cycle fuel st1 sel_id tb.work_list with
        | none => none
        | some st2 => clear_strands_loop fuel st2 rest
  termination_by structural fuel => fuel

/-- `Solver::try_pull_next_answer_from_strand` (`src/solver/table.rs:234`):
ensure the selected subgoal's answer, pull and uncanonicalize it, advance the
answer index, and either record an answer (empty rest) or fork a new strand
onto the work list. -/
def try_pull_next_answer_from_strand : Nat → Solver → Nat → Strand →
    Option (Except (Error × Strand) PullAnswerFromStrand × Solver)
  | 0, _, _, _ => none
  | fuel + 1, st, table_id, strand =>
    match ensure_answer fuel st strand.selected_subgoal_state.table_id
        strand.selected_subgoal_state.answer_index with
    | none => none
    | some (.error (.positiveCyclicDependency c), st1) =>
      some (.error (.positiveCyclicDependency c, strand), st1)
    | some (.error .negativeCyclicDependency, st1) =>
      some (.error (.negativeCyclicDependency, strand), st1)
    | some (.error .noMoreSolutions, st1) => some (.ok .stale, st1)
    | some (.ok .answerAvailable, st1) =>
      match alist_lookup strand.selected_subgoal_state.table_id st1.tables.tables with
      | none => none
      | some sub_table =>
        match sub_table.answers.get? strand.selected_subgoal_state.answer_index with
        | none => none
        | some pulled_answer =>
          let uncanonicalized := uncanonicalize_substitution pulled_answer
            strand.selected_subgoal_state.canonical_mapping
          let strand1 := {strand with selected_subgoal_state :=
            {strand.selected_subgoal_state with
              answer_index := strand.selected_subgoal_state.answer_index + 1}}
          match strand1.rest_subgoals with
          | [] =>
            match alist_lookup table_id st1.tables.tables with
            | none => none
            | some table =>
              let answer := strand1.substitution.compose uncanonicalized
              let r := table.insert_answer answer
              some (.ok (if r.1 then .newAnswer else .progress),
                upd_table st1 table_id {r.2 with work_list := r.2.work_list ++ [strand1]})
          | g :: grest =>
            let fsub := strand1.substitution.compose uncanonicalized
            let sel := Goal.mk (fsub.apply_predicate g.predicate)
            let rc := sel.canonicalize
            let m := reverse_mapping rc.1
            match get_table_id fuel st1 rc.2 with
            | none => none
            | some (tid2, st2) =>
              match alist_lookup table_id st2.tables.tables with
              | none => none
              | some table =>
                some (.ok .progress, upd_table st2 table_id
                  {table with work_list :=
                    table.work_list ++ [⟨grest, rc.2, fsub, ⟨0, tid2, m⟩⟩, strand1]})
  termination_by structural fuel => fuel

end

namespace legacy

/-- `Predicate` from the older-generation `src/clause.rs:6`
(`predicate` is the name field there). -/
structure Predicate : Type where
  predicate : String
  args : List Term
  deriving DecidableEq

/-- `Goal` from `src/clause.rs:12`. -/
structure Goal : Type where
  polar : Bool
  predicate : Predicate
  deriving DecidableEq

/-- `Clause` from `src/clause.rs:30`. -/
structure Clause : Type where
  head : Predicate
  body : List Goal
  deriving DecidableEq

mutual

/-- `Term::canonicalize_internal` from `src/clause.rs:107`: its
`Term::Atom(_)` arm is `todo!()`, i.e. a panic, modelled by `none`. -/
def term_canonicalize_internal (t : Term) (counter : Nat)
    (mapping : List (Nat × Nat)) : Option (Term × Nat × List (Nat × Nat)) :=
  match t with
  | .atom _ => none
  | .var id =>
    match alist_lookup id mapping with
    | some new_id => some (.var new_id, counter, mapping)
    | none => some (.var counter, counter + 1, alist_insert id counter mapping)
  | .compound f terms =>
    match term_canonicalize_internal_list terms counter mapping with
    | none => none
    | some r => some (.compound f r.1, r.2)

/-- `canonicalize_internal` folded over a term list. -/
def term_canonicalize_internal_list (ts : List Term) (counter : Nat)
    (mapping : List (Nat × Nat)) :
    Option (List Term × Nat × List (Nat × Nat)) :=
  match ts with
  | [] => some ([], counter, mapping)
  | t :: rest =>
    match term_canonicalize_internal t counter mapping with
    | none => none
    | some r =>
      match term_canonicalize_internal_list rest r.2.1 r.2.2 with
      | none => none
      | some r2 => some (r.1 :: r2.1, r2.2)

end

/-- The body-goal fold of `Clause::canonicalize` (`src/clause.rs:44-48`). -/
def goals_canonicalize (gs : List Goal) (counter : Nat)
    (mapping : List (Nat × Nat)) :
    Option (List Goal × Nat × List (Nat × Nat)) :=
  match gs with
  | [] => some ([], counter, mapping)
  | g :: rest =>
    match term_canonicalize_internal_list g.predicate.args counter mapping with
    | none => none
    | some r =>
      match goals_canonicalize rest r.2.1 r.2.2 with
      | none => none
      | some r2 => some (⟨g.polar, ⟨g.predicate.predicate, r.1⟩⟩ :: r2.1, r2.2)

/-- `Clause::canonicalize` from `src/clause.rs:36`: head arguments first,
then every body goal's arguments, threading counter and mapping; any atom
argument hits the `todo!()` arm and panics (`none`). -/
def Clause.canonicalize (c : Clause) : Option Clause :=
  match term_canonicalize_internal_list c.head.args 0 [] with
  | none => none
  | some rh =>
    match goals_canonicalize c.body rh.2.1 rh.2.2 with
    | none => none
    | some rb => some ⟨⟨c.head.predicate, rh.1⟩, rb.1⟩

/-- `KnowledgeBase` from `src/clause.rs:76`. -/
structure KnowledgeBase : Type where
  clauses_by_predicate_name : List (String × List Clause)
  deriving DecidableEq

/-- `entry(name).or_default().push(clause)`: append to the existing bucket,
or create a fresh one at the end. -/
def bucket_push (l : List (String × List Clause)) (k : String) (c : Clause) :
    List (String × List Clause) :=
  if l.any (fun p => p.1 = k) then
    l.map (fun p => if p.1 = k then (p.1, p.2 ++ [c]) else p)
  else
    l ++ [(k, [c])]

/-- `KnowledgeBase::add_clause` from `src/clause.rs:85`: canonicalize the
clause (panicking on any atom argument), then append it to the bucket keyed
by the head's predicate name. -/
def KnowledgeBase.add_clause (kb : KnowledgeBase) (clause : Clause) :
    Option KnowledgeBase :=
  match clause.canonicalize with
  | none => none
  | some c =>
    some ⟨bucket_push kb.clauses_by_predicate_name c.head.predicate c⟩

end legacy

/-- `Arena` from `src/arena.rs:84`: the id-keyed item map together with the
generator state `G`; `ID<T>` is its `u64` index. -/
structure Arena (T G : Type) : Type where
  generator : G
  items : List (Nat × T)

/-- `Arena::get` (`src/arena.rs:185`). -/
def Arena.get {T G : Type} (a : Arena T G) (id : Nat) : Option T :=
  alist_lookup id a.items

/-- `Arena::insert_with_id` (`src/arena.rs:148`): on an occupied id return
`Err` carrying the item back and leave the arena untouched; on a vacant id
insert the item and notify the generator (`State::explict_insert_with_id`,
whose trait dispatch is modelled by the explicit `explict_insert`
argument; it sees the id and the items map including the new entry). -/
def Arena.insert_with_id {T G : Type}
    (explict_insert : G → Nat → List (Nat × T) → G)
    (a : Arena T G) (id : Nat) (item : T) : Except T Unit × Arena T G :=
  match alist_lookup id a.items with
  | some _ => (.error item, a)
  | none =>
    let items := alist_insert id item a.items
    (.ok (), ⟨explict_insert a.generator id items, items⟩)

/-- A knowledge base holding the duplicated fact `p(a). p(a).`
(clause duplication is at the caller's discretion per the spec, §6). -/
def kbC1 : KnowledgeBase :=
  ⟨[("p", [⟨⟨"p", [.atom "a"]⟩, []⟩, ⟨⟨"p", [.atom "a"]⟩, []⟩])]⟩

/-- A fresh solver over `kbC1`. -/
def stC1 : Solver := ⟨⟨[], 0⟩, ⟨[], []⟩, kbC1⟩

/-- The ground canonical goal `p(a)`. -/
def gC1 : Goal := ⟨⟨"p", [.atom "a"]⟩⟩

/-- Knowledge base `p(X, X).` and `q(Y) :- p(Y, Z), r(Y).` in canonical
(stored) form. -/
def kbC5 : KnowledgeBase :=
  ⟨[("p", [⟨⟨"p", [.var 0, .var 0]⟩, []⟩]),
    ("q", [⟨⟨"q", [.var 0]⟩, [⟨⟨"p", [.var 0, .var 1]⟩⟩, ⟨⟨"r", [.var 0]⟩⟩]⟩])]⟩

/-- A fresh solver over `kbC5`. -/
def stC5 : Solver := ⟨⟨[], 0⟩, ⟨[], []⟩, kbC5⟩

/-- The canonical goal `q(?0)`. -/
def gC5 : Goal := ⟨⟨"q", [.var 0]⟩⟩

/-- The engine steps `ensure_answer(q, 0)` performs up to the first strand
processing: create the table for `q(?0)` (`get_table_id`), push it on the
stack, pop the first strand off its work list (as the loop of
`pull_next_answer` does) and run `try_pull_next_answer_from_strand` on it. -/
def c5_run : Option (Except (Error × Strand) PullAnswerFromStrand × Solver) :=
  match get_table_id 30 stC5 gC5 with
  | none => none
  | some (qid, st1) =>
    let stP := {st1 with stack := (st1.stack.push qid).2}
    match alist_lookup qid stP.tables.tables with
    | none => none
    | some tbl =>
      match tbl.work_list with
      | s :: rest =>
        try_pull_next_answer_from_strand 30
          (upd_table stP qid {tbl with work_list := rest}) qid s
      | [] => none

/-- A table with no answers yet (for the `ensure_answer` out-of-order call). -/
def tblC2 : Table := ⟨[], [], ⟨⟨"g", []⟩⟩, none⟩

/-- A solver whose table 0 has no answers and is active on the stack at
position 0 with depth-first number 7. -/
def stC2 : Solver := ⟨⟨[⟨0, ⟨7⟩⟩], 8⟩, ⟨[(0, tblC2)], [(⟨⟨"g", []⟩⟩, 0)]⟩, ⟨[]⟩⟩

/-- A table holding one (memoized) empty answer. -/
def tblC2w : Table := ⟨[], [⟨[]⟩], ⟨⟨"g", []⟩⟩, none⟩

/-- A solver whose table 0 already has one answer and an empty stack. -/
def stC2w : Solver := ⟨⟨[], 0⟩, ⟨[(0, tblC2w)], [(⟨⟨"g", []⟩⟩, 0)]⟩, ⟨[]⟩⟩

/-- An arbitrary strand (sitting in a work list that should be empty). -/
def strandC3 : Strand := ⟨[], ⟨⟨"d", []⟩⟩, ⟨[]⟩, ⟨0, 0, []⟩⟩

/-- A table whose work list is non-empty. -/
def tblC3 : Table := ⟨[strandC3], [], ⟨⟨"g", []⟩⟩, none⟩

/-- A solver whose table 0 has a non-empty work list while table 0 sits on
the stack with depth-first number 5. -/
def stC3 : Solver := ⟨⟨[⟨0, ⟨5⟩⟩], 6⟩, ⟨[(0, tblC3)], []⟩, ⟨[]⟩⟩

/-- A solver whose stack holds table 0 with depth-first number 3 (for the
negative-cycle case of the classifier). -/
def stC3w : Solver := ⟨⟨[⟨0, ⟨3⟩⟩], 4⟩, ⟨[], []⟩, ⟨[]⟩⟩

/-- Well-formedness invariant of an engine substitution (the spec's
idempotence invariant, §3): no right-hand side mentions any bound
variable. -/
def subst_wf (σ : Substitution) : Prop :=
  ∀ p ∈ σ.mapping, ∀ q ∈ σ.mapping, occurs_check q.1 p.2 = false

/-- `θ` absorbs `σ`: applying `σ` first changes nothing under `θ`.  This is
the standard "θ factors through σ with δ = θ" instantiation order. -/
def subst_absorbs (θ σ : Substitution) : Prop :=
  ∀ u : Term, θ.apply_term (σ.apply_term u) = θ.apply_term u

/-! ## Association-list facts -/

theorem alist_lookup_append_left {α : Type} :
    ∀ (l1 l2 : List (Nat × α)) (k : Nat) (x : α), alist_lookup k l1 = some x →
      alist_lookup k (l1 ++ l2) = some x := by
  intro l1 l2 k x h
  induction l1 with
  | nil => simp [alist_lookup] at h
  | cons p rest ih =>
    by_cases hp : p.1 = k
    · simp [alist_lookup, hp] at h ⊢
      exact h
    · simp [alist_lookup, hp] at h ⊢
      exact ih h

theorem alist_lookup_map_cmit (v : Nat) (t : Term) :
    ∀ (l : List (Nat × Term)) (w : Nat),
      alist_lookup w (l.map (fun p => (p.1, compose_mapping_in_term p.2 v t))) =
        (alist_lookup w l).map (fun u => compose_mapping_in_term u v t) := by
  intro l w
  induction l with
  | nil => simp [alist_lookup]
  | cons p rest ih =>
    by_cases h : p.1 = w
    · simp [alist_lookup, h]
    · simp [alist_lookup, h, ih]

theorem alist_any_eq_false_iff {α : Type} :
    ∀ (l : List (Nat × α)) (k : Nat),
      (l.any (fun p => p.1 = k) = false) ↔ alist_lookup k l = none := by
  intro l k
  induction l with
  | nil => simp [alist_lookup]
  | cons p rest ih =>
    by_cases h : p.1 = k
    · simp [alist_lookup, h]
    · simp [alist_lookup, h, ih]

theorem alist_lookup_append_right {α : Type} :
    ∀ (l1 l2 : List (Nat × α)) (k : Nat), alist_lookup k l1 = none →
      alist_lookup k (l1 ++ l2) = alist_lookup k l2 := by
  intro l1 l2 k h
  induction l1 with
  | nil => simp
  | cons p rest ih =>
    by_cases hp : p.1 = k
    · simp [alist_lookup, hp] at h
    · simp [alist_lookup, hp] at h ⊢
      exact ih h

theorem alist_lookup_isSome_of_mem {α : Type} :
    ∀ (l : List (Nat × α)) (p : Nat × α), p ∈ l →
      (alist_lookup p.1 l).isSome := by
  intro l p hp
  induction l with
  | nil => simp at hp
  | cons q rest ih =>
    by_cases hq : q.1 = p.1
    · simp [alist_lookup, hq]
    · rcases List.mem_cons.mp hp with h | h
      · rw [h] at hq; simp at hq
      · simp [alist_lookup, hq]
        exact ih h

theorem alist_lookup_mem {α : Type} :
    ∀ (l : List (Nat × α)) (k : Nat) (x : α), alist_lookup k l = some x →
      (k, x) ∈ l := by
  intro l k x h
  induction l with
  | nil => simp [alist_lookup] at h
  | cons q rest ih =>
    by_cases hq : q.1 = k
    · simp [alist_lookup, hq] at h
      cases q with
      | mk a b =>
        simp at h
        subst hq
        rw [h]
        exact List.mem_cons_self _ _
    · simp [alist_lookup, hq] at h
      exact List.mem_cons_of_mem _ (ih h)

/-! ## Basic facts about `apply_term`, `occurs_check`,
`compose_mapping_in_term` -/

mutual

theorem apply_term_empty : ∀ t : Term, (⟨[]⟩ : Substitution).apply_term t = t
  | .atom s => by simp [Substitution.apply_term]
  | .var v => by simp [Substitution.apply_term, alist_lookup]
  | .compound f args => by
    simp [Substitution.apply_term, apply_term_list_empty args]

theorem apply_term_list_empty :
    ∀ ts : List Term, (⟨[]⟩ : Substitution).apply_term_list ts = ts
  | [] => by simp [Substitution.apply_term_list]
  | t :: ts => by
    simp [Substitution.apply_term_list, apply_term_empty t, apply_term_list_empty ts]

end

mutual

theorem cmit_no_occurs :
    ∀ (u : Term) (v : Nat) (t : Term), occurs_check v u = false →
      compose_mapping_in_term u v t = u
  | .atom s, v, t => by simp [compose_mapping_in_term]
  | .var w, v, t => by
    intro h
    simp [occurs_check] at h
    simp [compose_mapping_in_term, h]
  | .compound f args, v, t => by
    intro h
    simp [occurs_check] at h
    simp [compose_mapping_in_term, cmit_list_no_occurs args v t h]

theorem cmit_list_no_occurs :
    ∀ (us : List Term) (v : Nat) (t : Term), occurs_check_list v us = false →
      compose_mapping_in_term_list us v t = us
  | [], v, t => by simp [compose_mapping_in_term_list]
  | u :: us, v, t => by
    intro h
    simp [occurs_check_list] at h
    simp [compose_mapping_in_term_list, cmit_no_occurs u v t h.1,
      cmit_list_no_occurs us v t h.2]

end

mutual

theorem occurs_cmit :
    ∀ (u : Term) (w v : Nat) (t : Term), occurs_check w (compose_mapping_in_term u v t) = true →
      (occurs_check w u = true ∧ w ≠ v) ∨ occurs_check w t = true
  | .atom s, w, v, t => by
    intro h
    simp [compose_mapping_in_term, occurs_check] at h
  | .var x, w, v, t => by
    intro h
    simp [compose_mapping_in_term] at h
    by_cases hx : x = v
    · simp [hx] at h
      right; exact h
    · simp [hx, occurs_check] at h
      left
      subst h
      simp [occurs_check]
      intro hw
      exact hx hw
  | .compound f args, w, v, t => by
    intro h
    simp [compose_mapping_in_term, occurs_check] at h ⊢
    exact occurs_cmit_list args w v t h

theorem occurs_cmit_list :
    ∀ (us : List Term) (w v : Nat) (t : Term),
      occurs_check_list w (compose_mapping_in_term_list us v t) = true →
      (occurs_check_list w us = true ∧ w ≠ v) ∨ occurs_check w t = true
  | [], w, v, t => by
    intro h
    simp [compose_mapping_in_term_list, occurs_check_list] at h
  | u :: us, w, v, t => by
    intro h
    simp [compose_mapping_in_term_list, occurs_check_list] at h ⊢
    rcases h with h | h
    · rcases occurs_cmit u w v t h with ⟨h1, h2⟩ | h1
      · exact Or.inl ⟨Or.inl h1, h2⟩
      · exact Or.inr h1
    · rcases occurs_cmit_list us w v t h with ⟨h1, h2⟩ | h1
      · exact Or.inl ⟨Or.inr h1, h2⟩
      · exact Or.inr h1

end

/-! ## `insert_mapping` characterization -/

theorem insert_mapping_eq_append (σ : Substitution) (v : Nat) (t : Term)
    (h : alist_lookup v σ.mapping = none) :
    (σ.insert_mapping v t).mapping =
      σ.mapping.map (fun p => (p.1, compose_mapping_in_term p.2 v t)) ++ [(v, t)] := by
  unfold Substitution.insert_mapping alist_insert
  have hany : (σ.mapping.map (fun p => (p.1, compose_mapping_in_term p.2 v t))).any
      (fun p => p.1 = v) = false := by
    rw [alist_any_eq_false_iff]
    rw [alist_lookup_map_cmit]
    simp [h]
  simp [hany]

theorem insert_mapping_lookup (σ : Substitution) (v : Nat) (t : Term)
    (h : alist_lookup v σ.mapping = none) (w : Nat) :
    alist_lookup w (σ.insert_mapping v t).mapping =
      if w = v then some t
      else (alist_lookup w σ.mapping).map (fun u => compose_mapping_in_term u v t) := by
  rw [insert_mapping_eq_append σ v t h]
  by_cases hw : w = v
  · subst hw
    have hm : alist_lookup w (σ.mapping.map
        (fun p => (p.1, compose_mapping_in_term p.2 w t))) = none := by
      rw [alist_lookup_map_cmit]; simp [h]
    rw [alist_lookup_append_right _ _ _ hm]
    simp [alist_lookup]
  · simp [hw]
    rcases h3 : alist_lookup w σ.mapping with _ | u0
    · have hm : alist_lookup w (σ.mapping.map
          (fun p => (p.1, compose_mapping_in_term p.2 v t))) = none := by
        rw [alist_lookup_map_cmit]; simp [h3]
      rw [alist_lookup_append_right _ _ _ hm]
      simp [alist_lookup, Ne.symm hw]
    · have hm : alist_lookup w (σ.mapping.map
          (fun p => (p.1, compose_mapping_in_term p.2 v t))) =
          some (compose_mapping_in_term u0 v t) := by
        rw [alist_lookup_map_cmit]; simp [h3]
      rw [alist_lookup_append_left _ _ _ _ hm]
      simp

mutual

theorem apply_insert :
    ∀ (u : Term) (σ : Substitution) (v : Nat) (t : Term),
      alist_lookup v σ.mapping = none →
      (σ.insert_mapping v t).apply_term u =
        compose_mapping_in_term (σ.apply_term u) v t
  | .atom s, σ, v, t => by
    intro h
    simp [Substitution.apply_term, compose_mapping_in_term]
  | .var w, σ, v, t => by
    intro h
    simp only [Substitution.apply_term]
    rw [insert_mapping_lookup σ v t h w]
    by_cases hw : w = v
    · subst hw
      simp [h, compose_mapping_in_term]
    · simp only [if_neg hw]
      cases h3 : alist_lookup w σ.mapping with
      | none => simp [compose_mapping_in_term, hw]
      | some u0 => simp
  | .compound f args, σ, v, t => by
    intro h
    simp [Substitution.apply_term, compose_mapping_in_term,
      apply_insert_list args σ v t h]

theorem apply_insert_list :
    ∀ (us : List Term) (σ : Substitution) (v : Nat) (t : Term),
      alist_lookup v σ.mapping = none →
      (σ.insert_mapping v t).apply_term_list us =
        compose_mapping_in_term_list (σ.apply_term_list us) v t
  | [], σ, v, t => by
    intro h
    simp [Substitution.apply_term_list, compose_mapping_in_term_list]
  | u :: us, σ, v, t => by
    intro h
    simp [Substitution.apply_term_list, compose_mapping_in_term_list,
      apply_insert u σ v t h, apply_insert_list us σ v t h]

end

mutual

theorem wf_no_occurs_apply :
    ∀ (u : Term) (σ : Substitution) (w : Nat) (x : Term), subst_wf σ →
      alist_lookup w σ.mapping = some x →
      occurs_check w (σ.apply_term u) = false
  | .atom s, σ, w, x => by
    intro hwf hlk
    simp [Substitution.apply_term, occurs_check]
  | .var y, σ, w, x => by
    intro hwf hlk
    simp only [Substitution.apply_term]
    cases h3 : alist_lookup y σ.mapping with
    | some ty =>
      exact hwf (y, ty) (alist_lookup_mem _ _ _ h3) (w, x) (alist_lookup_mem _ _ _ hlk)
    | none =>
      simp [occurs_check]
      intro hyw
      rw [hyw] at h3
      rw [h3] at hlk
      simp at hlk
  | .compound f args, σ, w, x => by
    intro hwf hlk
    simp only [Substitution.apply_term, occurs_check]
    exact wf_no_occurs_apply_list args σ w x hwf hlk

theorem wf_no_occurs_apply_list :
    ∀ (us : List Term) (σ : Substitution) (w : Nat) (x : Term), subst_wf σ →
      alist_lookup w σ.mapping = some x →
      occurs_check_list w (σ.apply_term_list us) = false
  | [], σ, w, x => by
    intro hwf hlk
    simp [Substitution.apply_term_list, occurs_check_list]
  | u :: us, σ, w, x => by
    intro hwf hlk
    simp [Substitution.apply_term_list, occurs_check_list,
      wf_no_occurs_apply u σ w x hwf hlk, wf_no_occurs_apply_list us σ w x hwf hlk]

end

mutual

theorem apply_id_of_unbound :
    ∀ (u : Term) (σ : Substitution),
      (∀ w, occurs_check w u = true → alist_lookup w σ.mapping = none) →
      σ.apply_term u = u
  | .atom s, σ => by
    intro h
    simp [Substitution.apply_term]
  | .var y, σ => by
    intro h
    have := h y (by simp [occurs_check])
    simp [Substitution.apply_term, this]
  | .compound f args, σ => by
    intro h
    have hargs : ∀ w, occurs_check_list w args = true → alist_lookup w σ.mapping = none := by
      intro w hw
      exact h w (by simp [occurs_check, hw])
    simp [Substitution.apply_term, apply_id_of_unbound_list args σ hargs]

theorem apply_id_of_unbound_list :
    ∀ (us : List Term) (σ : Substitution),
      (∀ w, occurs_check_list w us = true → alist_lookup w σ.mapping = none) →
      σ.apply_term_list us = us
  | [], σ => by
    intro h
    simp [Substitution.apply_term_list]
  | u :: us, σ => by
    intro h
    have h1 : ∀ w, occurs_check w u = true → alist_lookup w σ.mapping = none := by
      intro w hw
      exact h w (by simp [occurs_check_list, hw])
    have h2 : ∀ w, occurs_check_list w us = true → alist_lookup w σ.mapping = none := by
      intro w hw
      exact h w (by simp [occurs_check_list, hw])
    simp [Substitution.apply_term_list, apply_id_of_unbound u σ h1,
      apply_id_of_unbound_list us σ h2]

end

theorem wf_apply_unbound (σ : Substitution) (hwf : subst_wf σ) (u : Term) :
    ∀ w, occurs_check w (σ.apply_term u) = true → alist_lookup w σ.mapping = none := by
  intro w hw
  cases h3 : alist_lookup w σ.mapping with
  | none => rfl
  | some x =>
    rw [wf_no_occurs_apply u σ w x hwf h3] at hw
    simp at hw

theorem wf_absorbs_self (σ : Substitution) (hwf : subst_wf σ) :
    subst_absorbs σ σ := by
  intro u
  exact apply_id_of_unbound (σ.apply_term u) σ (wf_apply_unbound σ hwf u)

theorem absorbs_empty (θ : Substitution) : subst_absorbs θ ⟨[]⟩ := by
  intro u
  rw [apply_term_empty u]

theorem wf_empty : subst_wf ⟨[]⟩ := by
  intro p hp
  simp at hp

theorem absorbs_trans (c b a : Substitution)
    (hcb : subst_absorbs c b) (hba : subst_absorbs b a) : subst_absorbs c a := by
  intro u
  calc c.apply_term (a.apply_term u)
      = c.apply_term (b.apply_term (a.apply_term u)) := (hcb (a.apply_term u)).symm
    _ = c.apply_term (b.apply_term u) := by rw [hba u]
    _ = c.apply_term u := hcb u

mutual

theorem absorb_cmit :
    ∀ (w : Term) (θ : Substitution) (v : Nat) (tv : Term),
      θ.apply_term (.var v) = θ.apply_term tv →
      θ.apply_term (compose_mapping_in_term w v tv) = θ.apply_term w
  | .atom s, θ, v, tv => by
    intro h
    simp [compose_mapping_in_term]
  | .var x, θ, v, tv => by
    intro h
    simp only [compose_mapping_in_term]
    by_cases hx : x = v
    · subst hx
      simp [← h]
    · simp [hx]
  | .compound f args, θ, v, tv => by
    intro h
    simp only [compose_mapping_in_term, Substitution.apply_term]
    rw [absorb_cmit_list args θ v tv h]

theorem absorb_cmit_list :
    ∀ (ws : List Term) (θ : Substitution) (v : Nat) (tv : Term),
      θ.apply_term (.var v) = θ.apply_term tv →
      θ.apply_term_list (compose_mapping_in_term_list ws v tv) = θ.apply_term_list ws
  | [], θ, v, tv => by
    intro h
    simp [compose_mapping_in_term_list]
  | w :: ws, θ, v, tv => by
    intro h
    simp only [compose_mapping_in_term_list, Substitution.apply_term_list]
    rw [absorb_cmit w θ v tv h, absorb_cmit_list ws θ v tv h]

end

theorem wf_insert (σ : Substitution) (v : Nat) (t : Term)
    (hwf : subst_wf σ) (hv : alist_lookup v σ.mapping = none)
    (hocc : occurs_check v t = false)
    (hall : ∀ q ∈ σ.mapping, occurs_check q.1 t = false) :
    subst_wf (σ.insert_mapping v t) := by
  intro p hp q hq
  rw [insert_mapping_eq_append σ v t hv] at hp hq
  rcases List.mem_append.mp hp with hp | hp
  · rcases List.mem_map.mp hp with ⟨p0, hp0, hpe⟩
    rcases List.mem_append.mp hq with hq | hq
    · rcases List.mem_map.mp hq with ⟨q0, hq0, hqe⟩
      rw [← hpe, ← hqe]
      simp only []
      cases hc : occurs_check q0.1 (compose_mapping_in_term p0.2 v t) with
      | false => rfl
      | true =>
        rcases occurs_cmit p0.2 q0.1 v t hc with ⟨h1, _⟩ | h1
        · rw [hwf p0 hp0 q0 hq0] at h1
          simp at h1
        · rw [hall q0 hq0] at h1
          simp at h1
    · simp at hq
      rw [← hpe, hq]
      simp only []
      cases hc : occurs_check v (compose_mapping_in_term p0.2 v t) with
      | false => rfl
      | true =>
        rcases occurs_cmit p0.2 v v t hc with ⟨_, h2⟩ | h1
        · exact absurd rfl h2
        · rw [hocc] at h1
          simp at h1
  · simp at hp
    rw [hp]
    rcases List.mem_append.mp hq with hq | hq
    · rcases List.mem_map.mp hq with ⟨q0, hq0, hqe⟩
      rw [← hqe]
      exact hall q0 hq0
    · simp at hq
      rw [hq]
      exact hocc

theorem unify_insert_step (σ : Substitution) (v : Nat) (t' : Term)
    (hwf : subst_wf σ) (hv : alist_lookup v σ.mapping = none)
    (hocc : occurs_check v t' = false)
    (hall : ∀ q ∈ σ.mapping, occurs_check q.1 t' = false) :
    subst_wf (σ.insert_mapping v t') ∧
    subst_absorbs (σ.insert_mapping v t') σ ∧
    (σ.insert_mapping v t').apply_term (.var v) = t' ∧
    (σ.insert_mapping v t').apply_term t' = t' ∧
    ∀ θ, subst_absorbs θ σ → θ.apply_term (.var v) = θ.apply_term t' →
      subst_absorbs θ (σ.insert_mapping v t') := by
  have happt' : σ.apply_term t' = t' := by
    apply apply_id_of_unbound
    intro w hw
    cases h3 : alist_lookup w σ.mapping with
    | none => rfl
    | some x =>
      rw [hall (w, x) (alist_lookup_mem _ _ _ h3)] at hw
      simp at hw
  refine ⟨wf_insert σ v t' hwf hv hocc hall, ?_, ?_, ?_, ?_⟩
  · intro u
    rw [apply_insert (σ.apply_term u) σ v t' hv, apply_insert u σ v t' hv,
      wf_absorbs_self σ hwf u]
  · rw [apply_insert (.var v) σ v t' hv]
    simp [Substitution.apply_term, hv, compose_mapping_in_term]
  · rw [apply_insert t' σ v t' hv, happt', cmit_no_occurs t' v t' hocc]
  · intro θ habs hvar u
    rw [apply_insert u σ v t' hv, absorb_cmit (σ.apply_term u) θ v t' hvar,
      habs u]

theorem unify_master : ∀ fuel : Nat,
    (∀ (σ : Substitution) (lhs rhs : Term) (σ' : Substitution), subst_wf σ →
      Substitution.unify_terms fuel σ lhs rhs = some (some σ') →
      subst_wf σ' ∧ subst_absorbs σ' σ ∧
      σ'.apply_term lhs = σ'.apply_term rhs ∧
      ∀ θ, subst_absorbs θ σ → θ.apply_term lhs = θ.apply_term rhs →
        subst_absorbs θ σ') ∧
    (∀ (σ : Substitution) (ls rs : List Term) (σ' : Substitution), subst_wf σ →
      Substitution.unify_list fuel σ ls rs = some (some σ') →
      subst_wf σ' ∧ subst_absorbs σ' σ ∧
      σ'.apply_term_list ls = σ'.apply_term_list rs ∧
      ∀ θ, subst_absorbs θ σ → θ.apply_term_list ls = θ.apply_term_list rs →
        subst_absorbs θ σ') := by
  intro fuel
  induction fuel with
  | zero =>
    constructor
    · intro σ lhs rhs σ' _ h
      simp [Substitution.unify_terms] at h
    · intro σ ls rs σ' _ h
      simp [Substitution.unify_list] at h
  | succ fuel ih =>
    obtain ⟨ihT, ihL⟩ := ih
    constructor
    · intro σ lhs rhs σ' hwf h
      simp only [Substitution.unify_terms] at h
      cases hl : σ.apply_term lhs with
      | atom a1 =>
        cases hr : σ.apply_term rhs with
        | atom a2 =>
          rw [hl, hr] at h
          by_cases ha : a1 = a2
          · simp [ha] at h
            subst h
            refine ⟨hwf, wf_absorbs_self σ hwf, ?_, ?_⟩
            · calc σ.apply_term lhs = σ.apply_term (σ.apply_term lhs) :=
                    (wf_absorbs_self σ hwf lhs).symm
                _ = σ.apply_term (σ.apply_term rhs) := by rw [hl, hr, ha]
                _ = σ.apply_term rhs := wf_absorbs_self σ hwf rhs
            · intro θ habs _
              exact habs
          · simp [ha] at h
        | var v =>
          rw [hl, hr] at h
          simp only [occurs_check] at h
          simp at h
          obtain ⟨hocc0, rfl⟩ := h
          have hocc : occurs_check v (Term.atom a1) = false := by simp [occurs_check]
          have hv : alist_lookup v σ.mapping = none :=
            wf_apply_unbound σ hwf rhs v (by rw [hr]; simp [occurs_check])
          have hall : ∀ q ∈ σ.mapping, occurs_check q.1 (Term.atom a1) = false := by
            intro q hq
            simp [occurs_check]
          obtain ⟨hwf', habs', hvv, htt, hmgu⟩ :=
            unify_insert_step σ v (.atom a1) hwf hv hocc hall
          refine ⟨hwf', habs', ?_, ?_⟩
          · calc (σ.insert_mapping v (.atom a1)).apply_term lhs
                = (σ.insert_mapping v (.atom a1)).apply_term (σ.apply_term lhs) :=
                  (habs' lhs).symm
              _ = Term.atom a1 := by rw [hl]; exact htt
              _ = (σ.insert_mapping v (.atom a1)).apply_term (σ.apply_term rhs) := by
                  rw [hr]; exact hvv.symm
              _ = (σ.insert_mapping v (.atom a1)).apply_term rhs := habs' rhs
          · intro θ habs heq
            apply hmgu θ habs
            calc θ.apply_term (.var v) = θ.apply_term (σ.apply_term rhs) := by rw [hr]
              _ = θ.apply_term rhs := habs rhs
              _ = θ.apply_term lhs := heq.symm
              _ = θ.apply_term (σ.apply_term lhs) := (habs lhs).symm
              _ = θ.apply_term (.atom a1) := by rw [hl]
        | compound f2 args2 =>
          rw [hl, hr] at h
          simp at h
      | var v1 =>
        cases hr : σ.apply_term rhs with
        | var v2 =>
          rw [hl, hr] at h
          by_cases hv12 : v1 = v2
          · simp [hv12] at h
            subst h
            refine ⟨hwf, wf_absorbs_self σ hwf, ?_, ?_⟩
            · calc σ.apply_term lhs = σ.apply_term (σ.apply_term lhs) :=
                    (wf_absorbs_self σ hwf lhs).symm
                _ = σ.apply_term (σ.apply_term rhs) := by rw [hl, hr, hv12]
                _ = σ.apply_term rhs := wf_absorbs_self σ hwf rhs
            · intro θ habs _
              exact habs
          · have hocc : occurs_check v1 (Term.var v2) = false := by
              simp [occurs_check]
              intro hc
              exact hv12 hc.symm
            simp [hv12, hocc] at h
            have hv : alist_lookup v1 σ.mapping = none :=
              wf_apply_unbound σ hwf lhs v1 (by rw [hl]; simp [occurs_check])
            have hall : ∀ q ∈ σ.mapping, occurs_check q.1 (Term.var v2) = false := by
              intro q hq
              obtain ⟨x, hx⟩ := Option.isSome_iff_exists.mp
                (alist_lookup_isSome_of_mem σ.mapping q hq)
              have := wf_no_occurs_apply rhs σ q.1 x hwf hx
              rw [hr] at this
              exact this
            obtain ⟨hwf', habs', hvv, htt, hmgu⟩ :=
              unify_insert_step σ v1 (.var v2) hwf hv hocc hall
            rw [← h]
            refine ⟨hwf', habs', ?_, ?_⟩
            · calc (σ.insert_mapping v1 (.var v2)).apply_term lhs
                  = (σ.insert_mapping v1 (.var v2)).apply_term (σ.apply_term lhs) :=
                    (habs' lhs).symm
                _ = Term.var v2 := by rw [hl]; exact hvv
                _ = (σ.insert_mapping v1 (.var v2)).apply_term (σ.apply_term rhs) := by
                    rw [hr]; exact htt.symm
                _ = (σ.insert_mapping v1 (.var v2)).apply_term rhs := habs' rhs
            · intro θ habs heq
              apply hmgu θ habs
              calc θ.apply_term (.var v1) = θ.apply_term (σ.apply_term lhs) := by rw [hl]
                _ = θ.apply_term lhs := habs lhs
                _ = θ.apply_term rhs := heq
                _ = θ.apply_term (σ.apply_term rhs) := (habs rhs).symm
                _ = θ.apply_term (.var v2) := by rw [hr]
        | atom a2 =>
          rw [hl, hr] at h
          by_cases hocc : occurs_check v1 (Term.atom a2) = true
          · simp [hocc] at h
          · simp only [Bool.not_eq_true] at hocc
            simp [hocc] at h
            have hv : alist_lookup v1 σ.mapping = none :=
              wf_apply_unbound σ hwf lhs v1 (by rw [hl]; simp [occurs_check])
            have hall : ∀ q ∈ σ.mapping, occurs_check q.1 (Term.atom a2) = false := by
              intro q hq
              simp [occurs_check]
            obtain ⟨hwf', habs', hvv, htt, hmgu⟩ :=
              unify_insert_step σ v1 (.atom a2) hwf hv hocc hall
            rw [← h]
            refine ⟨hwf', habs', ?_, ?_⟩
            · calc (σ.insert_mapping v1 (.atom a2)).apply_term lhs
                  = (σ.insert_mapping v1 (.atom a2)).apply_term (σ.apply_term lhs) :=
                    (habs' lhs).symm
                _ = Term.atom a2 := by rw [hl]; exact hvv
                _ = (σ.insert_mapping v1 (.atom a2)).apply_term (σ.apply_term rhs) := by
                    rw [hr]; exact htt.symm
                _ = (σ.insert_mapping v1 (.atom a2)).apply_term rhs := habs' rhs
            · intro θ habs heq
              apply hmgu θ habs
              calc θ.apply_term (.var v1) = θ.apply_term (σ.apply_term lhs) := by rw [hl]
                _ = θ.apply_term lhs := habs lhs
                _ = θ.apply_term rhs := heq
                _ = θ.apply_term (σ.apply_term rhs) := (habs rhs).symm
                _ = θ.apply_term (.atom a2) := by rw [hr]
        | compound f2 args2 =>
          rw [hl, hr] at h
          by_cases hocc : occurs_check v1 (Term.compound f2 args2) = true
          · simp [hocc] at h
          · simp only [Bool.not_eq_true] at hocc
            simp [hocc] at h
            have hv : alist_lookup v1 σ.mapping = none :=
              wf_apply_unbound σ hwf lhs v1 (by rw [hl]; simp [occurs_check])
            have hall : ∀ q ∈ σ.mapping,
                occurs_check q.1 (Term.compound f2 args2) = false := by
              intro q hq
              obtain ⟨x, hx⟩ := Option.isSome_iff_exists.mp
                (alist_lookup_isSome_of_mem σ.mapping q hq)
              have := wf_no_occurs_apply rhs σ q.1 x hwf hx
              rw [hr] at this
              exact this
            obtain ⟨hwf', habs', hvv, htt, hmgu⟩ :=
              unify_insert_step σ v1 (.compound f2 args2) hwf hv hocc hall
            rw [← h]
            refine ⟨hwf', habs', ?_, ?_⟩
            · calc (σ.insert_mapping v1 (.compound f2 args2)).apply_term lhs
                  = (σ.insert_mapping v1 (.compound f2 args2)).apply_term
                      (σ.apply_term lhs) := (habs' lhs).symm
                _ = Term.compound f2 args2 := by rw [hl]; exact hvv
                _ = (σ.insert_mapping v1 (.compound f2 args2)).apply_term
                      (σ.apply_term rhs) := by rw [hr]; exact htt.symm
                _ = (σ.insert_mapping v1 (.compound f2 args2)).apply_term rhs :=
                    habs' rhs
            · intro θ habs heq
              apply hmgu θ habs
              calc θ.apply_term (.var v1) = θ.apply_term (σ.apply_term lhs) := by rw [hl]
                _ = θ.apply_term lhs := habs lhs
                _ = θ.apply_term rhs := heq
                _ = θ.apply_term (σ.apply_term rhs) := (habs rhs).symm
                _ = θ.apply_term (.compound f2 args2) := by rw [hr]
      | compound f1 args1 =>
        cases hr : σ.apply_term rhs with
        | atom a2 =>
          rw [hl, hr] at h
          simp at h
        | var v =>
          rw [hl, hr] at h
          by_cases hocc : occurs_check v (Term.compound f1 args1) = true
          · simp [hocc] at h
          · simp only [Bool.not_eq_true] at hocc
            simp [hocc] at h
            have hv : alist_lookup v σ.mapping = none :=
              wf_apply_unbound σ hwf rhs v (by rw [hr]; simp [occurs_check])
            have hall : ∀ q ∈ σ.mapping,
                occurs_check q.1 (Term.compound f1 args1) = false := by
              intro q hq
              obtain ⟨x, hx⟩ := Option.isSome_iff_exists.mp
                (alist_lookup_isSome_of_mem σ.mapping q hq)
              have := wf_no_occurs_apply lhs σ q.1 x hwf hx
              rw [hl] at this
              exact this
            obtain ⟨hwf', habs', hvv, htt, hmgu⟩ :=
              unify_insert_step σ v (.compound f1 args1) hwf hv hocc hall
            rw [← h]
            refine ⟨hwf', habs', ?_, ?_⟩
            · calc (σ.insert_mapping v (.compound f1 args1)).apply_term lhs
                  = (σ.insert_mapping v (.compound f1 args1)).apply_term
                      (σ.apply_term lhs) := (habs' lhs).symm
                _ = Term.compound f1 args1 := by rw [hl]; exact htt
                _ = (σ.insert_mapping v (.compound f1 args1)).apply_term
                      (σ.apply_term rhs) := by rw [hr]; exact hvv.symm
                _ = (σ.insert_mapping v (.compound f1 args1)).apply_term rhs :=
                    habs' rhs
            · intro θ habs heq
              apply hmgu θ habs
              calc θ.apply_term (.var v) = θ.apply_term (σ.apply_term rhs) := by rw [hr]
                _ = θ.apply_term rhs := habs rhs
                _ = θ.apply_term lhs := heq.symm
                _ = θ.apply_term (σ.apply_term lhs) := (habs lhs).symm
                _ = θ.apply_term (.compound f1 args1) := by rw [hl]
        | compound f2 args2 =>
          rw [hl, hr] at h
          by_cases hguard : f1 = f2 ∧ args1.length = args2.length
          · simp only [hguard, if_pos, and_self, if_true] at h
            have hlist := ihL σ args1 args2 σ' hwf (by exact h)
            obtain ⟨hwf', habs', hsound, hmgu⟩ := hlist
            refine ⟨hwf', habs', ?_, ?_⟩
            · calc σ'.apply_term lhs = σ'.apply_term (σ.apply_term lhs) :=
                    (habs' lhs).symm
                _ = Term.compound f1 (σ'.apply_term_list args1) := by
                    rw [hl]; simp [Substitution.apply_term]
                _ = Term.compound f2 (σ'.apply_term_list args2) := by
                    rw [hguard.1, hsound]
                _ = σ'.apply_term (σ.apply_term rhs) := by
                    rw [hr]; simp [Substitution.apply_term]
                _ = σ'.apply_term rhs := habs' rhs
            · intro θ habs heq
              apply hmgu θ habs
              have : θ.apply_term (Term.compound f1 args1) =
                  θ.apply_term (Term.compound f2 args2) := by
                calc θ.apply_term (Term.compound f1 args1)
                    = θ.apply_term (σ.apply_term lhs) := by rw [hl]
                  _ = θ.apply_term lhs := habs lhs
                  _ = θ.apply_term rhs := heq
                  _ = θ.apply_term (σ.apply_term rhs) := (habs rhs).symm
                  _ = θ.apply_term (Term.compound f2 args2) := by rw [hr]
              simp [Substitution.apply_term] at this
              exact this.2
          · simp [hguard] at h
    · intro σ ls rs σ' hwf h
      match ls, rs with
      | [], [] =>
        simp [Substitution.unify_list] at h
        subst h
        exact ⟨hwf, wf_absorbs_self σ hwf, rfl, fun θ habs _ => habs⟩
      | [], b :: bs =>
        simp [Substitution.unify_list] at h
      | a :: as_, [] =>
        simp [Substitution.unify_list] at h
      | a :: as_, b :: bs =>
        simp only [Substitution.unify_list] at h
        cases hu : Substitution.unify_terms fuel σ a b with
        | none => rw [hu] at h; simp at h
        | some o =>
          cases o with
          | none => rw [hu] at h; simp at h
          | some σ1 =>
            rw [hu] at h
            simp only [] at h
            obtain ⟨hwf1, habs1, hsound1, hmgu1⟩ := ihT σ a b σ1 hwf hu
            obtain ⟨hwf', habs2, hsound2, hmgu2⟩ := ihL σ1 as_ bs σ' hwf1 h
            refine ⟨hwf', absorbs_trans σ' σ1 σ habs2 habs1, ?_, ?_⟩
            · simp only [Substitution.apply_term_list]
              have hab : σ'.apply_term a = σ'.apply_term b := by
                calc σ'.apply_term a = σ'.apply_term (σ1.apply_term a) :=
                      (habs2 a).symm
                  _ = σ'.apply_term (σ1.apply_term b) := by rw [hsound1]
                  _ = σ'.apply_term b := habs2 b
              rw [hab, hsound2]
            · intro θ habs heq
              simp only [Substitution.apply_term_list] at heq
              have heq1 : θ.apply_term a = θ.apply_term b := by
                injection heq
              have heq2 : θ.apply_term_list as_ = θ.apply_term_list bs := by
                injection heq
              exact hmgu2 θ (hmgu1 θ habs heq1) heq2

mutual

theorem apply_cons_cmit :
    ∀ (w : Term) (v : Nat) (tv : Term) (rest : List (Nat × Term)),
      (∀ q ∈ rest, occurs_check q.1 tv = false) →
      Substitution.apply_term ⟨rest⟩ (compose_mapping_in_term w v tv) =
        Substitution.apply_term ⟨(v, tv) :: rest⟩ w
  | .atom s, v, tv, rest => by
    intro h
    simp [compose_mapping_in_term, Substitution.apply_term]
  | .var x, v, tv, rest => by
    intro h
    simp only [compose_mapping_in_term]
    by_cases hx : x = v
    · subst hx
      have htv : Substitution.apply_term ⟨rest⟩ tv = tv := by
        apply apply_id_of_unbound
        intro w hw
        cases h3 : alist_lookup w rest with
        | none => rfl
        | some y =>
          rw [h (w, y) (alist_lookup_mem _ _ _ h3)] at hw
          simp at hw
      simp [Substitution.apply_term, alist_lookup, htv]
    · simp only [if_neg hx]
      simp [Substitution.apply_term, alist_lookup, Ne.symm hx]
  | .compound f args, v, tv, rest => by
    intro h
    simp only [compose_mapping_in_term, Substitution.apply_term]
    rw [apply_cons_cmit_list args v tv rest h]

theorem apply_cons_cmit_list :
    ∀ (ws : List Term) (v : Nat) (tv : Term) (rest : List (Nat × Term)),
      (∀ q ∈ rest, occurs_check q.1 tv = false) →
      Substitution.apply_term_list ⟨rest⟩ (compose_mapping_in_term_list ws v tv) =
        Substitution.apply_term_list ⟨(v, tv) :: rest⟩ ws
  | [], v, tv, rest => by
    intro h
    simp [compose_mapping_in_term_list, Substitution.apply_term_list]
  | w :: ws, v, tv, rest => by
    intro h
    simp only [compose_mapping_in_term_list, Substitution.apply_term_list]
    rw [apply_cons_cmit w v tv rest h, apply_cons_cmit_list ws v tv rest h]

end

theorem compose_fold_spec :
    ∀ (l : List (Nat × Term)) (σ : Substitution),
      (∀ p ∈ l, alist_lookup p.1 σ.mapping = none) →
      (l.map Prod.fst).Nodup →
      (∀ p ∈ l, ∀ q ∈ l, occurs_check q.1 p.2 = false) →
      ∀ t, (l.foldl (fun acc p => acc.insert_mapping p.1 p.2) σ).apply_term t =
        Substitution.apply_term ⟨l⟩ (σ.apply_term t) := by
  intro l
  induction l with
  | nil =>
    intro σ _ _ _ t
    simp [apply_term_empty]
  | cons p rest ih =>
    intro σ hdisj hnodup hocc t
    obtain ⟨v, tv⟩ := p
    have hv : alist_lookup v σ.mapping = none := hdisj (v, tv) (List.mem_cons_self _ _)
    have hnodup' : (rest.map Prod.fst).Nodup := by
      simp at hnodup
      exact hnodup.2
    have hvnotin : v ∉ rest.map Prod.fst := by
      simp at hnodup
      intro hmem
      simp at hmem
      obtain ⟨b, hb⟩ := hmem
      exact hnodup.1 b hb
    have hdisj' : ∀ q ∈ rest, alist_lookup q.1 (σ.insert_mapping v tv).mapping = none := by
      intro q hq
      rw [insert_mapping_lookup σ v tv hv q.1]
      have hqv : q.1 ≠ v := by
        intro hc
        apply hvnotin
        rw [← hc]
        exact List.mem_map_of_mem Prod.fst hq
      rw [if_neg hqv]
      rw [hdisj q (List.mem_cons_of_mem _ hq)]
      rfl
    have hocc' : ∀ p ∈ rest, ∀ q ∈ rest, occurs_check q.1 p.2 = false := by
      intro p hp q hq
      exact hocc p (List.mem_cons_of_mem _ hp) q (List.mem_cons_of_mem _ hq)
    have hrest_tv : ∀ q ∈ rest, occurs_check q.1 tv = false := by
      intro q hq
      exact hocc (v, tv) (List.mem_cons_self _ _) q (List.mem_cons_of_mem _ hq)
    calc (((v, tv) :: rest).foldl (fun acc p => acc.insert_mapping p.1 p.2) σ).apply_term t
        = (rest.foldl (fun acc p => acc.insert_mapping p.1 p.2)
            (σ.insert_mapping v tv)).apply_term t := by simp
      _ = Substitution.apply_term ⟨rest⟩ ((σ.insert_mapping v tv).apply_term t) :=
          ih (σ.insert_mapping v tv) hdisj' hnodup' hocc' t
      _ = Substitution.apply_term ⟨rest⟩ (compose_mapping_in_term (σ.apply_term t) v tv) := by
          rw [apply_insert t σ v tv hv]
      _ = Substitution.apply_term ⟨(v, tv) :: rest⟩ (σ.apply_term t) :=
          apply_cons_cmit (σ.apply_term t) v tv rest hrest_tv

/-- C4 (amended): `apply(compose(σ, τ), t) = apply(τ, apply(σ, t))` holds for
all terms `t` provided `τ` binds no variable that `σ` binds, `τ`'s bound
variables are pairwise distinct (the `HashMap` key invariant), and no
right-hand side of `τ` mentions a variable bound by `τ` (`τ` idempotent in
the spec's sense); the unrestricted claim is refuted by
`c4_counterexample`. -/
theorem c4_compose_spec (σ τ : Substitution) (t : Term)
    (hdisj : ∀ p ∈ τ.mapping, alist_lookup p.1 σ.mapping = none)
    (hnodup : (τ.mapping.map Prod.fst).Nodup)
    (hidem : ∀ p ∈ τ.mapping, ∀ q ∈ τ.mapping, occurs_check q.1 p.2 = false) :
    (σ.compose τ).apply_term t = τ.apply_term (σ.apply_term t) :=
  compose_fold_spec τ.mapping σ hdisj hnodup hidem t

/-- C4 counterexample: with `σ = {0 ↦ a}` and `τ = {0 ↦ b}`,
`HashMap::insert` inside `compose` overwrites the binding of `0`, so
applying `compose(σ, τ)` to `?0` yields `b` while applying `τ` after `σ`
yields `a`: the composition law fails for overlapping domains. -/
theorem c4_counterexample :
    ((⟨[(0, .atom "a")]⟩ : Substitution).compose ⟨[(0, .atom "b")]⟩).apply_term (.var 0) ≠
      (⟨[(0, .atom "b")]⟩ : Substitution).apply_term
        ((⟨[(0, .atom "a")]⟩ : Substitution).apply_term (.var 0)) := by
  decide

/-- C4 witness: the amended composition law at `σ = {0 ↦ a}`,
`τ = {1 ↦ b}`, `t = f(?0, ?1)`. -/
theorem c4_witness :
    ((⟨[(0, .atom "a")]⟩ : Substitution).compose ⟨[(1, .atom "b")]⟩).apply_term
        (.compound "f" [.var 0, .var 1]) =
      (⟨[(1, .atom "b")]⟩ : Substitution).apply_term
        ((⟨[(0, .atom "a")]⟩ : Substitution).apply_term (.compound "f" [.var 0, .var 1])) :=
  c4_compose_spec ⟨[(0, .atom "a")]⟩ ⟨[(1, .atom "b")]⟩ (.compound "f" [.var 0, .var 1])
    (by decide) (by decide) (by decide)

/-- C5 (amended): every substitution returned by `unify_terms` started from
the empty substitution is idempotent — no binding's term contains its own
(or any bound) variable, and applying it twice equals applying it once.  The
original claim's second family — strand substitutions after `compose` — is
refuted by `c5_counterexample`. -/
theorem c5_unify_idempotent (fuel : Nat) (s t : Term) (σ : Substitution)
    (h : Substitution.unify_terms fuel ⟨[]⟩ s t = some (some σ)) :
    (∀ p ∈ σ.mapping, occurs_check p.1 p.2 = false) ∧
    (∀ u, σ.apply_term (σ.apply_term u) = σ.apply_term u) := by
  obtain ⟨hwf, _, _, _⟩ := (unify_master fuel).1 ⟨[]⟩ s t σ wf_empty h
  exact ⟨fun p hp => hwf p hp p hp, fun u => wf_absorbs_self σ hwf u⟩

/-- C5 counterexample: driving the engine on the knowledge base
`p(X, X).  q(Y) :- p(Y, Z), r(Y).` and the goal `q(?0)` up to the first
strand processing, the forked strand's substitution after `compose` is
`{0 ↦ ?2, 1 ↦ ?2, 2 ↦ ?2}`: its binding `2 ↦ ?2` maps a variable to a term
containing that very variable, so engine substitutions are not all
idempotent in the claimed sense. -/
theorem c5_counterexample :
    (c5_run.map (fun p =>
      (alist_lookup 0 p.2.tables.tables).map (fun tbl =>
        tbl.work_list.map Strand.substitution))) =
      some (some [⟨[(0, .var 2), (1, .var 2), (2, .var 2)]⟩, ⟨[(0, .var 1)]⟩]) ∧
    occurs_check 2 (.var 2) = true := by
  constructor
  · rfl
  · rfl

/-- C5 witness: the amended idempotence at the unifier output for
`unify(?0, a)`. -/
theorem c5_witness :
    (⟨[(0, Term.atom "a")]⟩ : Substitution).apply_term
        ((⟨[(0, Term.atom "a")]⟩ : Substitution).apply_term (.var 0)) =
      (⟨[(0, Term.atom "a")]⟩ : Substitution).apply_term (.var 0) :=
  (c5_unify_idempotent 5 (.var 0) (.atom "a") ⟨[(0, .atom "a")]⟩ (by decide)).2 (.var 0)

/-- C6: when `unify_terms` starting from the empty substitution returns `σ`,
then `σ` unifies the two terms, and `σ` is most general: every substitution
`θ` equating the two terms factors through `σ` (with `δ = θ` itself, since
`σ` is idempotent). -/
theorem c6_unify_most_general (fuel : Nat) (s t : Term) (σ : Substitution)
    (h : Substitution.unify_terms fuel ⟨[]⟩ s t = some (some σ)) :
    σ.apply_term s = σ.apply_term t ∧
    ∀ θ : Substitution, θ.apply_term s = θ.apply_term t →
      ∃ δ : Substitution, ∀ u : Term, θ.apply_term u = δ.apply_term (σ.apply_term u) := by
  obtain ⟨_, _, hsound, hmgu⟩ := (unify_master fuel).1 ⟨[]⟩ s t σ wf_empty h
  refine ⟨hsound, fun θ heq => ⟨θ, fun u => ?_⟩⟩
  exact (hmgu θ (absorbs_empty θ) heq u).symm

/-- C6 witness: the unifier of `f(?0)` and `f(a)` equates both sides. -/
theorem c6_witness :
    (⟨[(0, Term.atom "a")]⟩ : Substitution).apply_term (.compound "f" [.var 0]) =
      (⟨[(0, Term.atom "a")]⟩ : Substitution).apply_term (.compound "f" [.atom "a"]) :=
  (c6_unify_most_general 5 (.compound "f" [.var 0]) (.compound "f" [.atom "a"])
    ⟨[(0, .atom "a")]⟩ (by decide)).1

/-- C7: whenever `v` occurs in `t` and `t ≠ Variable(v)`, `unify_terms` on
`Variable(v)` and `t` from the empty substitution fails by returning `None`
(`some none` in the fueled model; the function is total, so it never
panics). -/
theorem c7_occurs_check_fails (fuel : Nat) (v : Nat) (t : Term)
    (h1 : occurs_check v t = true) (h2 : t ≠ .var v) :
    Substitution.unify_terms (fuel + 1) ⟨[]⟩ (.var v) t = some none := by
  cases t with
  | atom s => simp [occurs_check] at h1
  | var w =>
    simp [occurs_check] at h1
    rw [h1] at h2
    exact absurd rfl h2
  | compound f args =>
    simp only [Substitution.unify_terms, apply_term_empty]
    simp [h1]

/-- C7 witness: unifying `?0` with `f(?0)` fails. -/
theorem c7_witness :
    Substitution.unify_terms 1 ⟨[]⟩ (.var 0) (.compound "f" [.var 0]) = some none :=
  c7_occurs_check_fails 0 0 (.compound "f" [.var 0]) (by decide) (by decide)

/-- C1: with the duplicated fact `p(a). p(a).` and the ground goal `p(a)`,
the table the engine creates (`get_table_id` → `create_table`) holds the
empty substitution twice — `create_table` pushes empty-body answers with
`answers.push(substitution)` and never applies `insert_answer`'s
projection/de-duplication — whereas routing the same two answers through
`Table::insert_answer` stores the answer exactly once. -/
theorem c1_create_table_skips_dedup :
    ((get_table_id 9 stC1 gC1).bind
        (fun p => alist_lookup p.1 p.2.tables.tables)).map Table.answers =
      some [⟨[]⟩, ⟨[]⟩] ∧
    Substitution.hm_eq ⟨[]⟩ ⟨[]⟩ = true ∧
    (((⟨[], [], gC1, none⟩ : Table).insert_answer ⟨[]⟩).2.insert_answer ⟨[]⟩).2.answers =
      [⟨[]⟩] := by
  exact ⟨rfl, rfl, rfl⟩

/-- C8: `add_clause` on a clause whose head arguments are atoms —
`parent(alice, bob).` — panics: the old-generation
`Term::canonicalize_internal` of `src/clause.rs` has `todo!()` in its
`Term::Atom` arm, so the clause is never canonicalized nor appended. -/
theorem c8_add_clause_panics_on_atoms :
    legacy.KnowledgeBase.add_clause ⟨[]⟩
      ⟨⟨"parent", [.atom "alice", .atom "bob"]⟩, []⟩ = none := by
  rfl

/-- C8 companion: the same `add_clause` does canonicalize-and-append a
variable-only clause (`parent(?3, ?7).` stored as `parent(?0, ?1)` in the
`"parent"` bucket), showing the panic is specific to atom arguments. -/
theorem c8_add_clause_ok_on_variables :
    legacy.KnowledgeBase.add_clause ⟨[]⟩
      ⟨⟨"parent", [.var 3, .var 7]⟩, []⟩ =
      some ⟨[("parent", [⟨⟨"parent", [.var 0, .var 1]⟩, []⟩])]⟩ := by
  rfl

/-- C2 (amended): for a table id that exists and an index at most the number
of stored answers, `ensure_answer(T, i)` behaves exactly as claimed: a
memoized hit returns `AnswerAvailable` with the state untouched; otherwise an
active table yields `PositiveCyclicDependency` with the depth-first number at
its stack position, without pushing; otherwise the table is pushed,
`pull_next_answer` runs at the push index, the stack is popped and the
result's success is mapped to `AnswerAvailable`.  For `i` beyond the answer
count the code panics (`assert!`), refuted in `c2_counterexample`. -/
theorem c2_ensure_answer_spec (fuel : Nat) (st : Solver) (table_id answer_index : Nat)
    (table : Table) (ht : alist_lookup table_id st.tables.tables = some table) :
    (answer_index < table.answers.length →
      ensure_answer (fuel + 1) st table_id answer_index =
        some (.ok .answerAvailable, st)) ∧
    (answer_index = table.answers.length →
      (∀ p e, st.stack.is_active table_id = some p →
        st.stack.stack.get? p = some e →
        ensure_answer (fuel + 1) st table_id answer_index =
          some (.error (.positiveCyclicDependency e.depth_first_number), st)) ∧
      (st.stack.is_active table_id = none →
        ensure_answer (fuel + 1) st table_id answer_index =
          match pull_next_answer fuel {st with stack := (st.stack.push table_id).2}
              table_id (st.stack.push table_id).1 with
          | none => none
          | some (r, st2) =>
            some (r.map (fun _ => EnsureAnswer.answerAvailable),
              {st2 with stack := st2.stack.pop}))) := by
  constructor
  · intro hlt
    simp only [ensure_answer, ht, if_pos hlt]
  · intro heq
    have hnlt : ¬(answer_index < table.answers.length) := by omega
    have hne : ¬(table.answers.length ≠ answer_index) := by omega
    constructor
    · intro p e hp he
      simp only [ensure_answer, ht, if_neg hnlt, if_neg hne, hp, he]
    · intro hnone
      simp only [ensure_answer, ht, if_neg hnlt, if_neg hne, hnone]

/-- C2 counterexample: table 0 holds no answers and sits on the stack at
position 0, and `ensure_answer` is called with index 1: the claim predicts
`PositiveCyclicDependency(7)`, but the code trips
`assert!(table.answers.len() == answer_index)` and panics (`none`). -/
theorem c2_counterexample :
    ensure_answer 5 stC2 0 1 = none ∧
    stC2.stack.is_active 0 = some 0 ∧
    (alist_lookup 0 stC2.tables.tables).map (fun t => t.answers.length) = some 0 := by
  exact ⟨rfl, rfl, rfl⟩

/-- C2 witness: the memoized-hit case on a concrete solver. -/
theorem c2_witness :
    ensure_answer 4 stC2w 0 0 = some (.ok .answerAvailable, stC2w) :=
  (c2_ensure_answer_spec 3 stC2w 0 0 tblC2w rfl).1 (by decide)

/-- C3 (amended): with a valid `stack_index`, the cycle classifier compares
the depth-first number recorded there with `cyclic_counter` and returns
exactly `NegativeCyclicDependency` (state untouched) when it is smaller;
when equal, its result is that of `clear_strands_after_cycle` on the delayed
strands — the transitive clearing of the work-lists reachable through their
selected subgoals — mapped to `NoMoreSolutions` (so the verdict is returned
whenever the clearing completes; the clearing asserts the current table's
work-list is empty and panics otherwise, refuted for the unrestricted claim
in `c3_counterexample`); and `PositiveCyclicDependency(cyclic_counter)` when
greater, provided the current table exists (the delayed strands are then
re-enqueued on it). -/
theorem c3_cyclic_spec (fuel : Nat) (st : Solver) (delayed : List Strand)
    (cyclic_counter : DepthFirstNumber) (stack_index : Nat) (e : Entry)
    (he : st.stack.stack.get? stack_index = some e) :
    (e.depth_first_number.val < cyclic_counter.val →
      cyclic (fuel + 1) st delayed cyclic_counter stack_index =
        some (.negativeCyclicDependency, st)) ∧
    (e.depth_first_number.val = cyclic_counter.val →
      cyclic (fuel + 1) st delayed cyclic_counter stack_index =
        match clear_strands_after_cycle fuel st e.table delayed with
        | none => none
        | some st' => some (.noMoreSolutions, st')) ∧
    (cyclic_counter.val < e.depth_first_number.val →
      ∀ table, alist_lookup e.table st.tables.tables = some table →
        cyclic (fuel + 1) st delayed cyclic_counter stack_index =
          some (.positiveCyclicDependency cyclic_counter,
            upd_table st e.table
              {table with work_list := table.work_list ++ delayed})) := by
  refine ⟨?_, ?_, ?_⟩
  · intro hlt
    simp only [cyclic, he, if_pos hlt]
  · intro hq
    have hnlt : ¬(e.depth_first_number.val < cyclic_counter.val) := by omega
    simp only [cyclic, he, if_neg hnlt, if_pos hq]
  · intro hgt table htb
    have hnlt : ¬(e.depth_first_number.val < cyclic_counter.val) := by omega
    have hne : ¬(e.depth_first_number.val = cyclic_counter.val) := by omega
    simp only [cyclic, he, if_neg hnlt, if_neg hne, htb]

/-- C3 counterexample: stack position 0 holds table 0 with depth-first
number 5 and `cyclic_counter = 5` (the termination case), but table 0's
work list is non-empty: the claim predicts `NoMoreSolutions` after
clearing, while `clear_strands_after_cycle`'s
`assert!(work_list.is_empty())` panics (`none`). -/
theorem c3_counterexample :
    cyclic 9 stC3 [] ⟨5⟩ 0 = none ∧
    stC3.stack.stack.get? 0 = some ⟨0, ⟨5⟩⟩ ∧
    (alist_lookup 0 stC3.tables.tables).map (fun t => t.work_list.length) = some 1 := by
  exact ⟨rfl, rfl, rfl⟩

/-- C3 witness: the negative-cycle case at a concrete state (depth-first
number 3 against cyclic counter 5). -/
theorem c3_witness :
    cyclic 8 stC3w [] ⟨5⟩ 0 = some (.negativeCyclicDependency, stC3w) :=
  (c3_cyclic_spec 7 stC3w [] ⟨5⟩ 0 ⟨0, ⟨3⟩⟩ rfl).1 (by decide)

theorem upd_table_stack (st : Solver) (id : Nat) (tbl : Table) :
    (upd_table st id tbl).stack = st.stack := rfl

theorem stack_pop_push (s : Stack) (t : Nat) :
    ((s.push t).2.pop).stack = s.stack := by
  simp [Stack.push, Stack.pop]

theorem engine_stack_pack : ∀ fuel : Nat,
    (∀ st g out, get_table_id fuel st g = some out →
      out.2.stack.stack = st.stack.stack) ∧
    (∀ st g out, create_table fuel st g = some out →
      out.2.stack.stack = st.stack.stack) ∧
    (∀ st g k cs a s out, create_table_clauses fuel st g k cs a s = some out →
      out.2.2.stack.stack = st.stack.stack) ∧
    (∀ st tid i out, ensure_answer fuel st tid i = some out →
      out.2.stack.stack = st.stack.stack) ∧
    (∀ st tid si out, pull_next_answer fuel st tid si = some out →
      out.2.stack.stack = st.stack.stack) ∧
    (∀ st tid si cc d out, pull_loop fuel st tid si cc d = some out →
      out.2.stack.stack = st.stack.stack) ∧
    (∀ st tid s out, try_pull_next_answer_from_strand fuel st tid s = some out →
      out.2.stack.stack = st.stack.stack) ∧
    (∀ st d cc si out, cyclic fuel st d cc si = some out →
      out.2.stack.stack = st.stack.stack) ∧
    (∀ st tid s out, clear_strands_after_cycle fuel st tid s = some out →
      out.stack.stack = st.stack.stack) ∧
    (∀ st s out, clear_strands_loop fuel st s = some out →
      out.stack.stack = st.stack.stack) := by
  intro fuel
  induction fuel with
  | zero =>
    refine ⟨?_, ?_, ?_, ?_, ?_, ?_, ?_, ?_, ?_, ?_⟩ <;>
      (intros; rename_i h;
       simp [get_table_id, create_table, create_table_clauses, ensure_answer,
        pull_next_answer, pull_loop, try_pull_next_answer_from_strand, cyclic,
        clear_strands_after_cycle, clear_strands_loop] at h)
  | succ fuel ih =>
    obtain ⟨ihG, ihC, ihCL, ihE, ihP, ihPL, ihT, ihCY, ihCS, ihCSL⟩ := ih
    refine ⟨?_, ?_, ?_, ?_, ?_, ?_, ?_, ?_, ?_, ?_⟩
    · -- get_table_id
      intro st g out h
      simp only [get_table_id] at h
      split at h
      · cases h; rfl
      · split at h
        · exact absurd h (by simp)
        · rename_i tbl_st2 heq
          split at h
          · exact absurd h (by simp)
          · cases h
            exact ihC _ _ _ heq
    · -- create_table
      intro st g out h
      simp only [create_table] at h
      split at h
      · exact absurd h (by simp)
      · rename_i r heq
        cases h
        exact ihCL _ _ _ _ _ _ _ heq
    · -- create_table_clauses
      intro st g k cs a s out h
      simp only [create_table_clauses] at h
      split at h
      · cases h
        rfl
      · split at h
        · exact absurd h (by simp)
        · exact ihCL _ _ _ _ _ _ _ h
        · rename_i σ hequ
          split at h
          · exact ihCL _ _ _ _ _ _ _ h
          · split at h
            · exact absurd h (by simp)
            · rename_i tid_st heqg
              have h1 := ihCL _ _ _ _ _ _ _ h
              have h2 := ihG _ _ _ heqg
              rw [h1, h2]
    · -- ensure_answer
      intro st tid i out h
      simp only [ensure_answer] at h
      split at h
      · exact absurd h (by simp)
      · split at h
        · cases h
          rfl
        · split at h
          · exact absurd h (by simp)
          · split at h
            · split at h
              · exact absurd h (by simp)
              · cases h
                rfl
            · split at h
              · exact absurd h (by simp)
              · rename_i r_st2 heqp
                cases h
                have h1 := ihP _ _ _ _ heqp
                simp only [Stack.push] at h1
                simp only [Stack.pop, h1]
                exact List.dropLast_concat
    · -- pull_next_answer
      intro st tid si out h
      simp only [pull_next_answer] at h
      exact ihPL _ _ _ _ _ _ h
    · -- pull_loop
      intro st tid si cc d out h
      simp only [pull_loop] at h
      split at h
      · exact absurd h (by simp)
      · split at h
        · split at h
          · cases h
            rfl
          · split at h
            · exact absurd h (by simp)
            · rename_i e_st heqc
              cases h
              exact ihCY _ _ _ _ _ heqc
        · split at h
          · exact absurd h (by simp)
          · rename_i st2 heqt
            split at h
            · exact absurd h (by simp)
            · rename_i t2 heql
              cases h
              exact ihT _ _ _ _ heqt
          · rename_i st2 heqt
            have h1 := ihPL _ _ _ _ _ _ h
            have h2 := ihT _ _ _ _ heqt
            rw [h1, h2]
            rfl
          · rename_i st2 heqt
            have h1 := ihPL _ _ _ _ _ _ h
            have h2 := ihT _ _ _ _ heqt
            rw [h1, h2]
            rfl
          · rename_i st2 heqt
            cases h
            exact ihT _ _ _ _ heqt
          · rename_i st2 heqt
            have h1 := ihPL _ _ _ _ _ _ h
            have h2 := ihT _ _ _ _ heqt
            rw [h1, h2]
            rfl
          · rename_i st2 heqt
            have h1 := ihPL _ _ _ _ _ _ h
            have h2 := ihT _ _ _ _ heqt
            rw [h1, h2]
            rfl
    · -- try_pull_next_answer_from_strand
      intro st tid s out h
      simp only [try_pull_next_answer_from_strand] at h
      split at h
      · exact absurd h (by simp)
      · rename_i st1 heqe
        cases h
        exact ihE _ _ _ _ heqe
      · rename_i st1 heqe
        cases h
        exact ihE _ _ _ _ heqe
      · rename_i st1 heqe
        cases h
        exact ihE _ _ _ _ heqe
      · rename_i st1 heqe
        split at h
        · exact absurd h (by simp)
        · split at h
          · exact absurd h (by simp)
          · split at h
            · split at h
              · exact absurd h (by simp)
              · rename_i table heql
                cases h
                exact ihE _ _ _ _ heqe
            · split at h
              · exact absurd h (by simp)
              · rename_i tid2_st2 heqg
                split at h
                · exact absurd h (by simp)
                · rename_i table heql2
                  cases h
                  have h1 := ihG _ _ _ heqg
                  have h2 := ihE _ _ _ _ heqe
                  rw [upd_table_stack, h1, h2]
    · -- cyclic
      intro st d cc si out h
      simp only [cyclic] at h
      split at h
      · exact absurd h (by simp)
      · split at h
        · cases h
          rfl
        · split at h
          · split at h
            · exact absurd h (by simp)
            · rename_i st2 heqc
              cases h
              exact ihCS _ _ _ _ heqc
          · split at h
            · exact absurd h (by simp)
            · cases h
              rfl
    · -- clear_strands_after_cycle
      intro st tid s out h
      simp only [clear_strands_after_cycle] at h
      split at h
      · exact absurd h (by simp)
      · split at h
        · exact ihCSL _ _ _ h
        · exact absurd h (by simp)
    · -- clear_strands_loop
      intro st s out h
      simp only [clear_strands_loop] at h
      split at h
      · cases h
        rfl
      · split at h
        · exact absurd h (by simp)
        · split at h
          · exact absurd h (by simp)
          · rename_i st2 heqc
            have h1 := ihCSL _ _ _ h
            have h2 := ihCS _ _ _ _ heqc
            rw [h1, h2]
            rfl

/-- C9: any `ensure_answer` call that returns — success or any error kind —
leaves the Stack with exactly the entries it had before the call: the push
performed when the table is not active is always matched by the pop before
returning (only the depth-first-number counter may advance). -/
theorem c9_ensure_answer_stack_preserved (fuel : Nat) (st : Solver)
    (table_id answer_index : Nat) (out : Except Error EnsureAnswer × Solver)
    (h : ensure_answer fuel st table_id answer_index = some out) :
    out.2.stack.stack = st.stack.stack :=
  (engine_stack_pack fuel).2.2.2.1 st table_id answer_index out h

/-- C9 witness: a memoized-hit call on a concrete solver. -/
theorem c9_witness : stC2w.stack.stack = stC2w.stack.stack :=
  c9_ensure_answer_stack_preserved 3 stC2w 0 0 (.ok .answerAvailable, stC2w) (by rfl)

theorem alist_lookup_map_replace_self {α : Type} (k : Nat) (v : α) :
    ∀ l : List (Nat × α), l.any (fun p => p.1 = k) = true →
      alist_lookup k (l.map (fun p => if p.1 = k then (k, v) else p)) = some v := by
  intro l
  induction l with
  | nil =>
    intro h
    simp at h
  | cons p rest ih =>
    intro h
    rw [List.any_cons] at h
    by_cases hp : p.1 = k
    · simp [alist_lookup, hp]
    · have hrest : rest.any (fun p => decide (p.1 = k)) = true := by
        cases ha : decide (p.1 = k) with
        | true => exact absurd (of_decide_eq_true ha) hp
        | false =>
          rw [ha] at h
          simpa using h
      simp only [List.map_cons, alist_lookup, if_neg hp]
      exact ih hrest

theorem alist_lookup_insert_self {α : Type} (l : List (Nat × α)) (k : Nat) (v : α) :
    alist_lookup k (alist_insert k v l) = some v := by
  unfold alist_insert
  by_cases hany : l.any (fun p => p.1 = k) = true
  · rw [if_pos hany]
    exact alist_lookup_map_replace_self k v l hany
  · rw [if_neg hany]
    have hnone : alist_lookup k l = none :=
      (alist_any_eq_false_iff l k).mp (Bool.eq_false_iff.mpr hany)
    rw [alist_lookup_append_right _ _ _ hnone]
    simp [alist_lookup]

theorem alist_lookup_map_replace {α : Type} (k j : Nat) (v : α) (hjk : j ≠ k) :
    ∀ l : List (Nat × α),
      alist_lookup j (l.map (fun p => if p.1 = k then (k, v) else p)) =
        alist_lookup j l := by
  intro l
  induction l with
  | nil => simp [alist_lookup]
  | cons p rest ih =>
    by_cases hpk : p.1 = k
    · have hpj : ¬(p.1 = j) := by rw [hpk]; exact Ne.symm hjk
      simp only [List.map_cons, if_pos hpk, alist_lookup, if_neg (Ne.symm hjk), if_neg hpj]
      exact ih
    · by_cases hpj : p.1 = j
      · simp only [List.map_cons, if_neg hpk, alist_lookup, if_pos hpj]
      · simp only [List.map_cons, if_neg hpk, alist_lookup, if_neg hpj]
        exact ih

theorem alist_lookup_insert_other {α : Type} (l : List (Nat × α)) (k j : Nat)
    (v : α) (hjk : j ≠ k) :
    alist_lookup j (alist_insert k v l) = alist_lookup j l := by
  unfold alist_insert
  by_cases hany : l.any (fun p => p.1 = k) = true
  · rw [if_pos hany]
    exact alist_lookup_map_replace k j v hjk l
  · rw [if_neg hany]
    cases h3 : alist_lookup j l with
    | some x => exact alist_lookup_append_left _ _ _ _ h3
    | none =>
      rw [alist_lookup_append_right _ _ _ h3]
      simp [alist_lookup, Ne.symm hjk]

/-- C10: `Arena::insert_with_id(id, item)` returns `Err` carrying the item
back exactly when the id is occupied, leaving the arena (items and
generator) untouched; on a vacant id it returns `Ok`, the arena then maps
`id` to the item and every other id to what it held before. -/
theorem c10_insert_with_id_spec {T G : Type}
    (explict_insert : G → Nat → List (Nat × T) → G)
    (a : Arena T G) (id : Nat) (item : T) :
    (∀ x, a.get id = some x →
      Arena.insert_with_id explict_insert a id item = (.error item, a)) ∧
    (a.get id = none →
      (Arena.insert_with_id explict_insert a id item).1 = .ok () ∧
      (Arena.insert_with_id explict_insert a id item).2.get id = some item ∧
      ∀ j, j ≠ id →
        (Arena.insert_with_id explict_insert a id item).2.get j = a.get j) := by
  constructor
  · intro x hx
    simp only [Arena.insert_with_id, Arena.get] at hx ⊢
    rw [hx]
  · intro hnone
    simp only [Arena.get] at hnone
    simp only [Arena.insert_with_id, Arena.get, hnone]
    refine ⟨trivial, ?_, ?_⟩
    · exact alist_lookup_insert_self a.items id item
    · intro j hj
      exact alist_lookup_insert_other a.items id j item hj

/-- C10 witness: both branches at a concrete arena holding `{0 ↦ 5}`. -/
theorem c10_witness :
    Arena.insert_with_id (fun g _ _ => g) (⟨(), [(0, 5)]⟩ : Arena Nat Unit) 0 7 =
      (.error 7, (⟨(), [(0, 5)]⟩ : Arena Nat Unit)) ∧
    (Arena.insert_with_id (fun g _ _ => g) (⟨(), [(0, 5)]⟩ : Arena Nat Unit) 1 7).2.get 1 =
      some 7 :=
  ⟨(c10_insert_with_id_spec (fun g _ _ => g) ⟨(), [(0, 5)]⟩ 0 7).1 5 (by decide),
   ((c10_insert_with_id_spec (fun g _ _ => g) ⟨(), [(0, 5)]⟩ 1 7).2 (by decide)).2.1⟩
